import Mathlib

/-!
# Verification of the Grimoire content-to-site pipeline (`grimoire.py`)

Shallow embedding of the pure core of `grimoire.py`: the name formatter
(`strip_number_prefix`, `capitalize_with_acronyms`, `format_display_name`), the
document loader helpers (`parse_frontmatter` for the legacy `%` header format,
`calculate_reading_time`, `generate_page_id`, `get_page_hierarchy`), the content
scanner's file selection (`scan_directory`), the navigation tree builder
(`build_tree`) and the navigation renderer
(`generate_navigation_html_for_depth`), together with theorems settling the
frozen claims about them.

Python strings are modelled as Lean `String`/`List Char`; the embedding is
faithful on ASCII data (Python's locale-independent `str.lower`, `str.upper`,
`str.isupper`, `str.isalnum` agree with the Lean `Char` primitives there).
Filesystem paths are modelled as lists of path segments.
-/

namespace Grimoire

/-- The characters Python's `str.split()` / `str.strip()` and the regex class
`\s` treat as whitespace (ASCII range). -/
def pyIsSpace (c : Char) : Bool :=
  c = ' ' || c = '\t' || c = '\n' || c = '\r' || c = '\x0b' || c = '\x0c'

/-- One step of `pyWords` (processing one character, right to left). -/
def pyWordsStep (c : Char) (acc : List (List Char) × List Char) :
    List (List Char) × List Char :=
  if pyIsSpace c then
    (if acc.2.isEmpty then acc.1 else acc.2 :: acc.1, [])
  else (acc.1, c :: acc.2)

/-- Final step of `pyWords`: flush the pending word if nonempty. -/
def pyWordsWrap (r : List (List Char) × List Char) : List (List Char) :=
  if r.2.isEmpty then r.1 else r.2 :: r.1

/-- Python `str.split()` with no argument: split on runs of whitespace and drop
empty pieces.  Used by `capitalize_with_acronyms` and by
`calculate_reading_time`'s word count. -/
def pyWords (cs : List Char) : List (List Char) :=
  pyWordsWrap (cs.foldr pyWordsStep ([], []))

/-- Python `str.lower` (ASCII). -/
def pyLower (cs : List Char) : List Char := cs.map Char.toLower

/-- Python `str.upper` (ASCII). -/
def pyUpper (cs : List Char) : List Char := cs.map Char.toUpper

/-- Python `str.capitalize` (ASCII): first character upper-cased, the rest
lower-cased. -/
def pyCapitalize : List Char → List Char
  | [] => []
  | c :: cs => Char.toUpper c :: cs.map Char.toLower

/-- Python `str.isupper` (ASCII): at least one cased character, and every cased
character is upper case.  For ASCII the cased characters are the letters. -/
def pyIsUpper (cs : List Char) : Bool :=
  cs.any (fun c => c.isAlpha) && cs.all (fun c => !c.isAlpha || c.isUpper)

/-- Python `str.replace(old, new)` for a single-character pattern, which is a
character-wise substitution. -/
def replaceChar (old new : Char) (cs : List Char) : List Char :=
  cs.map (fun c => if c = old then new else c)

/-- Python `str.strip()` with no argument: trim whitespace from both ends. -/
def pyStrip (cs : List Char) : List Char :=
  ((cs.dropWhile pyIsSpace).reverse.dropWhile pyIsSpace).reverse

/-- Python `str.split(sep)` for a one-character separator, keeping empty
pieces (`"".split('\n') == ['']`). -/
def splitOnChar (sep : Char) (cs : List Char) : List (List Char) :=
  cs.foldr
    (fun c acc =>
      match acc with
      | [] => [[c]]
      | w :: rest => if c = sep then [] :: w :: rest else (c :: w) :: rest)
    [[]]

/-- `grimoire.py` line 55: the closed set of English function words kept in
lower case by `capitalize_with_acronyms` (unless first). -/
def LOWERCASE_WORDS : List (List Char) :=
  ["and".data, "or".data, "the".data, "a".data, "an".data, "in".data,
   "on".data, "at".data, "to".data, "for".data, "of".data, "with".data]

/-- Separator characters accepted after the digits by the number-prefix regex
`^\d+[-_.\s]+` of `strip_number_prefix` (line 68). -/
def numPrefixSep (c : Char) : Bool :=
  c = '-' || c = '_' || c = '.' || pyIsSpace c

/-- `grimoire.py` lines 58-68, `strip_number_prefix` on the character list:
`re.sub(r'^\d+[-_.\s]+', '', name)` removes a maximal run of leading digits
followed by a maximal nonempty run of separator characters; if the name does
not start with digits followed by a separator it is returned unchanged. -/
def stripNumPrefixL (cs : List Char) : List Char :=
  if (cs.takeWhile Char.isDigit) ≠ [] ∧
      ((cs.dropWhile Char.isDigit).takeWhile numPrefixSep) ≠ [] then
    (cs.dropWhile Char.isDigit).dropWhile numPrefixSep
  else cs

/-- `grimoire.py` lines 58-68, `strip_number_prefix` on strings. -/
def strip_number_prefix (name : String) : String :=
  String.mk (stripNumPrefixL name.data)

/-- The body of the `for` loop of `capitalize_with_acronyms`
(`grimoire.py` lines 83-96): how one word at index `i` is transformed. -/
def capWord (acronyms : List (List Char)) (i : Nat) (word : List Char) :
    List Char :=
  let wl := pyLower word
  if wl ∈ acronyms then pyUpper word
  else if 2 ≤ word.length ∧ pyIsUpper word then word
  else if i = 0 ∨ wl ∉ LOWERCASE_WORDS then pyCapitalize word
  else wl

/-- `grimoire.py` lines 71-98, `capitalize_with_acronyms`: split into words,
transform each word according to its index, join with single spaces.  The
acronym set is modelled as a list of (lower-case) character lists. -/
def capitalize_with_acronyms (text : String) (acronyms : List (List Char)) :
    String :=
  String.mk (List.intercalate [' ']
    ((pyWords text.data).enum.map (fun p => capWord acronyms p.1 p.2)))

/-- First-match lookup in the display-name override mapping (a Python dict has
at most one binding per key, so an association list lookup models
`name in overrides` / `overrides[name]`). -/
def lookupOverride (k : String) (ov : List (String × String)) : Option String :=
  (ov.find? (fun p => p.1 == k)).map (fun p => p.2)

/-- `grimoire.py` lines 101-131, `format_display_name`.  When `stripPre` (the
source's `strip_prefix` flag) is false the name is returned unchanged;
otherwise: exact override lookup, number-prefix stripping, second override
lookup, hyphen/underscore to space conversion and acronym-aware
capitalization. -/
def format_display_name (name : String) (stripPre : Bool)
    (acronyms : List (List Char)) (overrides : List (String × String)) :
    String :=
  if !stripPre then name
  else
    match lookupOverride name overrides with
    | some v => v
    | none =>
      let stripped := strip_number_prefix name
      match lookupOverride stripped overrides with
      | some v => v
      | none =>
        capitalize_with_acronyms
          (String.mk (replaceChar '_' ' ' (replaceChar '-' ' ' stripped.data)))
          acronyms

/-- Round-half-to-even on rationals: the exact-arithmetic model of Python's
builtin `round` (for the word counts at hand `words / 200` is computed exactly
enough by the float division that the two agree). -/
def pyRound (q : ℚ) : ℤ :=
  if q - (⌊q⌋ : ℚ) < 1/2 then ⌊q⌋
  else if 1/2 < q - (⌊q⌋ : ℚ) then ⌊q⌋ + 1
  else if ⌊q⌋ % 2 = 0 then ⌊q⌋ else ⌊q⌋ + 1

/-- `len(content.split())`: the word count used by `calculate_reading_time`. -/
def wordCount (content : String) : Nat := (pyWords content.data).length

/-- `grimoire.py` lines 477-480, `calculate_reading_time`:
`max(1, round(words / 200))`. -/
def calculate_reading_time (content : String) : Nat :=
  (max 1 (pyRound ((wordCount content : ℚ) / 200))).toNat

/-- `grimoire.py` lines 455-458, `generate_page_id`: the relative path with its
suffix stripped (here: directory segments plus the file stem), joined by the
OS separator and with `/` and `\` replaced by `-`. -/
def generate_page_id (dirs : List String) (stem : String) : String :=
  String.mk (replaceChar '\\' '-' (replaceChar '/' '-'
    (List.intercalate ['/'] ((dirs ++ [stem]).map String.data))))

/-- `grimoire.py` lines 460-463, `generate_page_url`: the relative path with
the suffix replaced by `.html` and separators normalized to `/`. -/
def generate_page_url (dirs : List String) (stem : String) : String :=
  String.mk (replaceChar '\\' '/'
    (List.intercalate ['/'] ((dirs ++ [stem ++ ".html"]).map String.data)))

/-- The hierarchy record returned by `get_page_hierarchy` (lines 433-453). -/
structure Hierarchy where
  levels_raw : List String
  levels : List String
  category : String
  depth : Nat
deriving DecidableEq

/-- `grimoire.py` lines 433-453, `get_page_hierarchy`: `dirs` are the folder
segments of the path relative to the content root (`relative_path.parts[:-1]`). -/
def get_page_hierarchy (dirs : List String) (stripPre : Bool)
    (acronyms : List (List Char)) (overrides : List (String × String)) :
    Hierarchy :=
  let levels := dirs.map (fun p => format_display_name p stripPre acronyms overrides)
  { levels_raw := dirs
    levels := levels
    category :=
      if levels ≠ [] then String.intercalate " > " levels else "General"
    depth := levels.length }

/-! ## Content scanner (`scan_directory`, lines 528-577) -/

/-- A Markdown file under the content directory: the folder segments of its
path relative to the content root, and its file name without the trailing
`.md` (its `Path.stem`). -/
structure MdFile where
  dirs : List String
  stem : String
deriving DecidableEq

/-- Default `exclude_folders` (lines 537-539). -/
def DEFAULT_EXCLUDE_FOLDERS : List String :=
  [".trash", ".obsidian", ".git", "__pycache__", "node_modules"]

/-- Python `name.rsplit('.', 1)[0] if '.' in name else name` (line 544):
everything before the last `.`, or the whole name when it has no dot. -/
def dropLastExt (cs : List Char) : List Char :=
  if cs.contains '.' then ((cs.reverse.dropWhile (fun c => c ≠ '.')).drop 1).reverse
  else cs

/-- The separator characters trimmed by `is_valid_name` (line 546). -/
def nameSepChars : List Char := ['-', '_', '=', '.', ' ']

/-- Python `name_without_ext.strip('-_=. ')` (line 546). -/
def stripNameSeps (cs : List Char) : List Char :=
  ((cs.dropWhile (fun c => nameSepChars.contains c)).reverse.dropWhile
    (fun c => nameSepChars.contains c)).reverse

/-- `grimoire.py` lines 541-548, the nested `is_valid_name`: strip one trailing
extension, trim separator characters, and require some alphanumeric content. -/
def is_valid_name (name : String) : Bool :=
  !(stripNameSeps (dropLastExt name.data)).isEmpty
    && (stripNameSeps (dropLastExt name.data)).any (fun c => c.isAlphanum)

/-- `f.parts` of the full filesystem path of `f`: the segments of the content
directory's own path, then the relative folders, then the file name. -/
def fileParts (cdParts : List String) (f : MdFile) : List String :=
  cdParts ++ f.dirs ++ [f.stem ++ ".md"]

/-- The filter of the `rglob` loop, lines 552-564: a file is kept unless it is
named `index.md`, some segment of its full path is an excluded folder, its
stem is invalid, or some folder of its relative path is invalid. -/
def keepFile (cdParts excludeFolders : List String) (f : MdFile) : Bool :=
  !(f.stem ++ ".md" == "index.md")
    && !(excludeFolders.any (fun e => (fileParts cdParts f).contains e))
    && is_valid_name f.stem
    && f.dirs.all (fun part => is_valid_name part)

/-- Lexicographic comparison of character lists (code-point order), modelling
Python's path ordering in `sorted(md_files)`. -/
def lexLe : List Char → List Char → Bool
  | [], _ => true
  | _ :: _, [] => false
  | a :: as, b :: bs => if a = b then lexLe as bs else decide (a < b)

/-- Order on files used by `sorted(md_files)` (line 566): by full path. -/
def pathLe (cdParts : List String) (a b : MdFile) : Bool :=
  lexLe (List.intercalate ['/'] ((fileParts cdParts a).map String.data))
    (List.intercalate ['/'] ((fileParts cdParts b).map String.data))

/-- File selection and ordering of `scan_directory` (lines 552-566). -/
def selectFiles (cdParts excludeFolders : List String) (files : List MdFile) :
    List MdFile :=
  (files.filter (keepFile cdParts excludeFolders)).mergeSort (pathLe cdParts)

/-- `grimoire.py` lines 528-577, `scan_directory`: empty when the content
directory does not exist, otherwise the selected files in sorted order.  The
per-file processing (`process_markdown_file`) reads file contents (I/O) and is
embedded separately; the returned list is exactly the files that become
Pages. -/
def scan_directory (dirExists : Bool) (cdParts excludeFolders : List String)
    (files : List MdFile) : List MdFile :=
  if !dirExists then [] else selectFiles cdParts excludeFolders files

/-- A name is invalid in the spec's words: after stripping one trailing
extension and trimming the separator characters `-_=. `, it contains no
alphanumeric character.  To be compared with the source's `is_valid_name`. -/
def specInvalidName (name : String) : Prop :=
  ∀ c ∈ stripNameSeps (dropLastExt name.data), ¬(c.isAlphanum = true)

/-- The spec's description of when the Scanner excludes a file (§4.3): named
`index.md`, or an excluded folder segment anywhere in its path, or an invalid
stem, or an invalid folder segment in its relative path. -/
def specExcluded (cdParts excludeFolders : List String) (f : MdFile) : Prop :=
  f.stem ++ ".md" = "index.md"
    ∨ (∃ seg ∈ fileParts cdParts f, seg ∈ excludeFolders)
    ∨ specInvalidName f.stem
    ∨ ∃ d ∈ f.dirs, specInvalidName d

/-! ## Run outcome (`generate_site` + `main`, lines 1140-1336) -/

/-- What a whole run leaves behind at the process level: printed diagnostics,
the interpreter's exit status, and whether site generation proceeded. -/
structure RunOutcome where
  diagnostics : List String
  exitCode : Nat
  generated : Bool
deriving DecidableEq

/-- `generate_site` (lines 1140-1149) as called by `main` (lines 1287-1336):
when the scan produces no pages, `generate_site` prints
`[!] No markdown files found!` and returns early (no output is written); `main`
then falls through and the interpreter exits normally.  `sys.exit` is never
called anywhere in `grimoire.py`, so the process exit status is 0 on every
path. -/
def generate_site_run (dirExists : Bool) (cdParts excludeFolders : List String)
    (files : List MdFile) : RunOutcome :=
  if (scan_directory dirExists cdParts excludeFolders files).isEmpty then
    { diagnostics :=
        (if !dirExists then ["[!] Content directory not found"] else [])
          ++ ["[!] No markdown files found!"]
      exitCode := 0
      generated := false }
  else
    { diagnostics :=
        ["[+] Site generated successfully!"]
      exitCode := 0
      generated := true }

/-! ## Frontmatter parsing (`parse_frontmatter`, lines 383-420) -/

/-- Python `line.startswith('%')`. -/
def startsPercent : List Char → Bool
  | [] => false
  | c :: _ => c = '%'

/-- Assignment `frontmatter[key] = value` into a Python dict modelled as an
association list: update in place if the key exists, else append. -/
def dictInsert (k v : String) (fm : List (String × String)) :
    List (String × String) :=
  if fm.any (fun p => p.1 == k) then
    fm.map (fun p => if p.1 == k then (k, v) else p)
  else fm ++ [(k, v)]

/-- One iteration of the `%` loop (lines 405-412): strip the leading `%`, and
if the rest contains `:`, split at the first `:`, normalize the key
(`strip`, `lower`, spaces to underscores) and store the stripped value. -/
def parsePercentLine (fm : List (String × String)) (line : List Char) :
    List (String × String) :=
  if (pyStrip (line.drop 1)).contains ':' then
    dictInsert
      (String.mk (replaceChar ' ' '_'
        (pyLower (pyStrip ((pyStrip (line.drop 1)).takeWhile (fun c => c ≠ ':'))))))
      (String.mk (pyStrip (((pyStrip (line.drop 1)).dropWhile (fun c => c ≠ ':')).drop 1)))
      fm
  else fm

/-- The `for` loop of the `%` branch (lines 404-415): consume leading `%`
lines, stopping at the first line that does not start with `%`; returns the
accumulated frontmatter and the remaining lines. -/
def percentLoop : List (List Char) → List (String × String) →
    List (String × String) × List (List Char)
  | [], fm => (fm, [])
  | line :: rest, fm =>
    if startsPercent line then percentLoop rest (parsePercentLine fm line)
    else (fm, line :: rest)

/-- `grimoire.py` lines 383-420, `parse_frontmatter`, for documents that do not
start with `---`: the legacy `%`-prefixed header format, or no frontmatter at
all.  (The YAML branch, for content starting with `---`, delegates to the
external `yaml` collaborator and is outside the embedded core.) -/
def parse_frontmatter (content : String) : List (String × String) × String :=
  if startsPercent content.data then
    ((percentLoop (splitOnChar '\n' content.data) []).1,
      String.mk (pyStrip (List.intercalate ['\n']
        (percentLoop (splitOnChar '\n' content.data) []).2)))
  else ([], content)

/-! ## Pages and the navigation tree (`build_tree`, lines 619-642) -/

/-- The fields of the page dictionary consumed by `build_tree` and the
navigation renderer (`id`, `url`, `title`, `levels_raw`, `levels`); the other
entries of the dict built by `process_markdown_file` (html content, reading
time, ...) are not read by them. -/
structure Page where
  id : String
  url : String
  title : String
  levels_raw : List String
  levels : List String
deriving DecidableEq

/-- One node of the tree built by `build_tree`: the Python dict
`{'__display__': d, '__pages__': ps, raw₁: child₁, ...}` with the non-`__`
keys kept as an insertion-ordered association list. -/
inductive NavNode where
  | mk (display : String) (children : List (String × NavNode)) (pages : List Page)

def NavNode.display : NavNode → String
  | .mk d _ _ => d

def NavNode.children : NavNode → List (String × NavNode)
  | .mk _ c _ => c

def NavNode.pages : NavNode → List Page
  | .mk _ _ p => p

/-- `level_raw in current` / `current[level_raw]` on the association list. -/
def lookupChild : List (String × NavNode) → String → Option NavNode
  | [], _ => none
  | (k, n) :: rest, key => if k = key then some n else lookupChild rest key

/-- Assignment `current[level_raw] = ...` for an existing key: replace the
value in place (Python dicts keep the original position on update). -/
def replaceChild (key : String) (newNode : NavNode) :
    List (String × NavNode) → List (String × NavNode)
  | [] => []
  | (k, n) :: rest =>
    if k = key then (k, newNode) :: rest
    else (k, n) :: replaceChild key newNode rest

/-- The inner loop of `build_tree` (lines 632-641): walk/create nodes along
the level path (pairs of raw name and display name, as the source's
`enumerate(levels_raw)` with `levels[i]`) and append the page at the leaf. -/
def insertWalk : NavNode → List (String × String) → Page → NavNode
  | .mk d ch ps, [], p => .mk d ch (ps ++ [p])
  | .mk d ch ps, (raw, disp) :: rest, p =>
    match lookupChild ch raw with
    | some child => .mk d (replaceChild raw (insertWalk child rest p) ch) ps
    | none => .mk d (ch ++ [(raw, insertWalk (.mk disp [] []) rest p)]) ps

/-- `build_tree` (lines 619-642): fold the page list into a tree.  The root
node has no `__display__` in the source; its display field is unused.
`levels_raw` is paired index-wise with `levels`, exactly as the source's
`levels[i]` access (the source would raise IndexError for a page whose
`levels` is shorter than `levels_raw`; Scanner-produced pages always have
equal lengths). -/
def build_tree (pages : List Page) : NavNode :=
  pages.foldl (fun t p => insertWalk t (p.levels_raw.zip p.levels) p)
    (.mk "" [] [])

/-- Tree isomorphism in the sense of spec §8: same display names, same page
membership per node (as multisets), same set of child keys, and isomorphic
subtrees under each key. -/
inductive TreeEquiv : NavNode → NavNode → Prop where
  | intro : ∀ (t1 t2 : NavNode),
      t1.display = t2.display →
      t1.pages.Perm t2.pages →
      (∀ k, (lookupChild t1.children k).isSome
          ↔ (lookupChild t2.children k).isSome) →
      (∀ k c1 c2, lookupChild t1.children k = some c1 →
          lookupChild t2.children k = some c2 → TreeEquiv c1 c2) →
      TreeEquiv t1 t2

/-- A page sits somewhere in the tree (at this node or inside a child). -/
inductive PageIn (p : Page) : NavNode → Prop where
  | here : ∀ (n : NavNode), p ∈ n.pages → PageIn p n
  | child : ∀ (n : NavNode) (k : String) (c : NavNode),
      (k, c) ∈ n.children → PageIn p c → PageIn p n

/-! ## Navigation renderer (`generate_navigation_html_for_depth`, lines 613-743) -/

/-- Python string comparison (code-point lexicographic), used by
`sorted(node.items())` and `sorted(pages, key=title)`. -/
def strLe (a b : String) : Bool := lexLe a.data b.data

/-- The `ui` configuration consumed by the renderer: `category_icons`,
`default_icon` (default `fas fa-folder`) and `show_bookmarks` (default
`True`), already resolved from `config.get('ui', {})`. -/
structure UiConfig where
  category_icons : List (String × String)
  default_icon : String
  show_bookmarks : Bool

/-- The built-in fallback icon table of `get_category_icon`
(lines 592-605). -/
def DEFAULT_ICONS : List (String × String) :=
  [("getting started", "fas fa-rocket"), ("getting-started", "fas fa-rocket"),
   ("guides", "fas fa-book"), ("tutorials", "fas fa-graduation-cap"),
   ("api", "fas fa-plug"), ("api reference", "fas fa-plug"),
   ("examples", "fas fa-code"), ("tools", "fas fa-tools"),
   ("reference", "fas fa-bookmark"), ("configuration", "fas fa-cog"),
   ("deployment", "fas fa-rocket"), ("security", "fas fa-shield-alt")]

/-- `for key in [...]: if key in table: return table[key]` — first key that
hits the table. -/
def firstHit : List String → List (String × String) → Option String
  | [], _ => none
  | k :: rest, m =>
    match lookupOverride k m with
    | some v => some v
    | none => firstHit rest m

/-- `grimoire.py` lines 579-611, `get_category_icon`: try the config icon map
with four derived keys, then the built-in table with two, then the configured
default icon. -/
def get_category_icon (ui : UiConfig) (category : String) : String :=
  match firstHit
      [String.mk (pyLower category.data),
       String.mk (replaceChar '-' ' ' (stripNumPrefixL (pyLower category.data))),
       String.mk (stripNumPrefixL (pyLower category.data)),
       category]
      ui.category_icons with
  | some v => v
  | none =>
    match firstHit
        [String.mk (replaceChar '-' ' ' (stripNumPrefixL (pyLower category.data))),
         String.mk (stripNumPrefixL (pyLower category.data))]
        DEFAULT_ICONS with
    | some v => v
    | none => ui.default_icon

/-- One character of Python `html.escape` (quote=True). -/
def escapeChar (c : Char) : List Char :=
  if c = '&' then "&amp;".data
  else if c = '<' then "&lt;".data
  else if c = '>' then "&gt;".data
  else if c = '"' then "&quot;".data
  else if c.toNat = 39 then "&#x27;".data
  else [c]

/-- Python `html.escape` applied to titles and display names. -/
def htmlEscape (s : String) : String :=
  String.mk (s.data.map escapeChar).join

/-- `'&' ↦ "and"` of the id slug (the other characters stay). -/
def slugChar (c : Char) : List Char :=
  if c = '&' then "and".data else [c]

/-- The stable id slug of a folder name:
`raw.lower().replace(' ', '-').replace('&', 'and')` (lines 654 and 712). -/
def folderSlug (raw : String) : String :=
  String.mk ((replaceChar ' ' '-' (pyLower raw.data)).map slugChar).join

/-- `'../' * depth if depth > 0 else ''` (line 703). -/
def dotdotSlash : Nat → String
  | 0 => ""
  | n + 1 => "../" ++ dotdotSlash n

/-- `''.join(html_parts)`. -/
def concatAll (l : List String) : String :=
  l.foldr (fun a b => a ++ b) ""

/-- The bookmark button markup (lines 692 and 736). -/
def bookmarkBtn (showBm : Bool) (pid : String) : String :=
  if showBm then
    "<button class=\"bookmark-btn\" data-page=\"" ++ pid
      ++ "\"><i class=\"far fa-bookmark\"></i></button>"
  else ""

/-- The page link emitted inside `render_sublevel` (lines 689-697). -/
def pageLinkHtml (showBm : Bool) (pre : String) (levelDepth : Nat)
    (p : Page) : String :=
  "\n                                "
    ++ ("<a href=\"" ++ (pre ++ p.url) ++ "\"")
    ++ (" class=\"nav-item "
      ++ (if 0 < levelDepth then "nav-item-depth-" ++ toString levelDepth
          else "nav-item")
      ++ "\" data-page=\"" ++ p.id
      ++ "\">\n                                    <span class=\"nav-item-text\">"
      ++ htmlEscape p.title
      ++ "</span>\n                                    "
      ++ bookmarkBtn showBm p.id
      ++ "\n                                </a>")

/-- The root-level page link emitted at the top level (lines 734-741). -/
def rootPageLinkHtml (showBm : Bool) (pre : String) (p : Page) : String :=
  "\n                "
    ++ ("<a href=\"" ++ (pre ++ p.url) ++ "\"")
    ++ (" class=\"nav-item\" data-page=\"" ++ p.id
      ++ "\">\n                    <span class=\"nav-item-text\">"
      ++ htmlEscape p.title
      ++ "</span>\n                    "
      ++ bookmarkBtn showBm p.id
      ++ "\n                </a>")

/-- Opening markup of a depth-1 subcategory (lines 659-665). -/
def subcategoryOpenHtml (folderId display : String) : String :=
  "\n                        <div class=\"nav-subcategory\">"
    ++ "\n                            <button class=\"subcategory-header\" data-category=\""
    ++ folderId ++ "\">"
    ++ "\n                                <span><i class=\"fas fa-folder-open\"></i> "
    ++ htmlEscape display ++ "</span>"
    ++ "\n                                <i class=\"fas fa-chevron-right subcategory-chevron\"></i>"
    ++ "\n                            </button>"
    ++ "\n                            <div class=\"subcategory-items\" id=\""
    ++ folderId ++ "\">"

/-- Opening markup of a deeper level (lines 668-673). -/
def deepOpenHtml (levelDepth : Nat) (folderId display : String) : String :=
  "\n                                <div class=\"nav-level-deep\" data-depth=\""
    ++ toString levelDepth ++ "\">"
    ++ "\n                                    <button class=\"deep-header\" data-category=\""
    ++ folderId ++ "\">"
    ++ "\n                                        <span><i class=\"fas fa-angle-right deep-chevron\"></i> "
    ++ htmlEscape display ++ "</span>"
    ++ "\n                                    </button>"
    ++ "\n                                    <div class=\"deep-items\" id=\""
    ++ folderId ++ "\">"

/-- Closing markup, depth 1 (lines 680-682). -/
def subcategoryCloseHtml : String :=
  "\n                            </div>\n                        </div>"

/-- Closing markup, deeper levels (lines 684-686). -/
def deepCloseHtml : String :=
  "\n                                    </div>\n                                </div>"

/-- Opening markup of a top-level category (lines 715-724). -/
def categoryOpenHtml (iconClass catId display : String) : String :=
  "\n                <div class=\"nav-category\">"
    ++ "\n                    <button class=\"category-header\" data-category=\""
    ++ catId ++ "\">"
    ++ "\n                        <span>"
    ++ "\n                            <i class=\"" ++ iconClass ++ " category-icon\"></i>"
    ++ "\n                            " ++ htmlEscape display
    ++ "\n                        </span>"
    ++ "\n                        <i class=\"fas fa-chevron-right category-chevron\"></i>"
    ++ "\n                    </button>"
    ++ "\n                    <div class=\"category-items\" id=\"" ++ catId ++ "\">"

/-- Closing markup of a top-level category (lines 729-731). -/
def categoryCloseHtml : String :=
  "\n                    </div>\n                </div>"

/-- `render_sublevel` (lines 644-699): render the sorted subfolders of a node
(with the depth-dependent wrapper and a recursive call for the children of
each), then the node's own pages sorted by title.  The display name of a
folder is the `__display__` entry the tree builder stored
(`folder_data.get('__display__', folder_raw)`, whose default branch is dead
for nodes created by `build_tree`). -/
def renderSublevel (ui : UiConfig) (node : NavNode) (parentId : String)
    (levelDepth : Nat) (pre : String) : String :=
  concatAll
    ((node.children.mergeSort (fun a b => strLe a.1 b.1)).attach.map
      (fun x =>
        (if levelDepth = 1 then
          subcategoryOpenHtml (parentId ++ "-" ++ folderSlug x.1.1)
            x.1.2.display
         else
          deepOpenHtml levelDepth (parentId ++ "-" ++ folderSlug x.1.1)
            x.1.2.display)
          ++ renderSublevel ui x.1.2 (parentId ++ "-" ++ folderSlug x.1.1)
              (levelDepth + 1) pre
          ++ (if levelDepth = 1 then subcategoryCloseHtml else deepCloseHtml)))
    ++ concatAll
      ((node.pages.mergeSort (fun a b => strLe a.title b.title)).map
        (pageLinkHtml ui.show_bookmarks pre levelDepth))
termination_by sizeOf node
decreasing_by
  obtain ⟨⟨k, c⟩, hmem⟩ := x
  have hm := List.mem_mergeSort.mp hmem
  have h1 := List.sizeOf_lt_of_mem hm
  cases node with
  | mk d ch ps =>
    simp only [NavNode.children] at h1
    simp only
    simp_arith at h1 ⊢
    omega

/-- `generate_navigation_html_for_depth` (lines 613-743): build the tree from
all pages, then render each sorted top-level category (header, recursive
sublevels, footer) followed by the sorted root-level pages, with every link
prefixed by `'../' * depth`. -/
def generate_navigation_html_for_depth (ui : UiConfig) (pages : List Page)
    (depth : Nat) : String :=
  concatAll
    (((build_tree pages).children.mergeSort (fun a b => strLe a.1 b.1)).map
      (fun kv =>
        categoryOpenHtml (get_category_icon ui kv.1) (folderSlug kv.1)
            kv.2.display
          ++ renderSublevel ui kv.2 (folderSlug kv.1) 1 (dotdotSlash depth)
          ++ categoryCloseHtml))
    ++ concatAll
      (((build_tree pages).pages.mergeSort (fun a b => strLe a.title b.title)).map
        (rootPageLinkHtml ui.show_bookmarks (dotdotSlash depth)))

/-- The hrefs of exactly the page links `render_sublevel` emits, collected in
the renderer's own traversal order (sorted subfolders recursively, then the
node's sorted pages): `url_prefix + page['url']` for every rendered page. -/
def collectSublevelHrefs (node : NavNode) (pre : String) : List String :=
  (((node.children.mergeSort (fun a b => strLe a.1 b.1)).attach.map
    (fun x => collectSublevelHrefs x.1.2 pre)).flatten)
    ++ (node.pages.mergeSort (fun a b => strLe a.title b.title)).map
      (fun p => pre ++ p.url)
termination_by sizeOf node
decreasing_by
  obtain ⟨⟨k, c⟩, hmem⟩ := x
  have hm := List.mem_mergeSort.mp hmem
  have h1 := List.sizeOf_lt_of_mem hm
  cases node with
  | mk d ch ps =>
    simp only [NavNode.children] at h1
    simp only
    simp_arith at h1 ⊢
    omega

/-- The hrefs of exactly the page links the whole navigation render emits at
a given depth: the sorted top-level categories (recursively), then the sorted
root pages. -/
def navLinkHrefs (pages : List Page) (depth : Nat) : List String :=
  ((((build_tree pages).children.mergeSort (fun a b => strLe a.1 b.1)).map
    (fun kv => collectSublevelHrefs kv.2 (dotdotSlash depth))).flatten)
    ++ ((build_tree pages).pages.mergeSort (fun a b => strLe a.title b.title)).map
      (fun p => dotdotSlash depth ++ p.url)

/-- A body of `n` words, each a single `w`, separated by single spaces. -/
def repeatedWords (n : Nat) : String :=
  String.mk (List.intercalate [' '] (List.replicate n ['w']))

/-- Integer characterization of the reading time: `wordCount / 200` rounded to
the nearest integer with ties going to the even neighbour (Python `round`),
floored at 1.  This is the amended form of spec claim C3 (the spec says
"ceiling"). -/
def natReadingTime (w : Nat) : Nat :=
  max 1
    (if w % 200 < 100 then w / 200
     else if 100 < w % 200 then w / 200 + 1
     else if (w / 200) % 2 = 0 then w / 200 else w / 200 + 1)

/-- The per-word transformation as the spec describes it (§4.1 (f)-(g)):
acronym upper-casing first, then preservation of fully-uppercase words of
length ≥ 2, then function words are lower-cased when not first, and every
other word is title-cased.  To be compared with `capWord` from the source. -/
def specCapWord (acronyms : List (List Char)) (i : Nat) (word : List Char) :
    List Char :=
  if pyLower word ∈ acronyms then pyUpper word
  else if 2 ≤ word.length ∧ pyIsUpper word then word
  else if pyLower word ∈ LOWERCASE_WORDS ∧ i ≠ 0 then pyLower word
  else pyCapitalize word

/-! ## Basic lemmas about the word splitter -/

theorem intercalate_cons₂ (s a b : List Char) (t : List (List Char)) :
    List.intercalate s (a :: b :: t) = a ++ s ++ List.intercalate s (b :: t) := by
  simp [List.intercalate]

theorem intercalate_singleton (s a : List Char) : List.intercalate s [a] = a := by
  simp [List.intercalate]

theorem foldr_pyWordsStep_word (w : List Char)
    (hw : ∀ c ∈ w, pyIsSpace c = false) (st : List (List Char)) :
    w.foldr pyWordsStep (st, []) = (st, w) := by
  induction w with
  | nil => rfl
  | cons c cs ih =>
    have hc : pyIsSpace c = false := hw c (by simp)
    have hcs : ∀ x ∈ cs, pyIsSpace x = false := fun x hx => hw x (by simp [hx])
    simp [List.foldr_cons, ih hcs, pyWordsStep, hc]

theorem pyWordsStep_space (c : Char) (r : List (List Char) × List Char)
    (h : pyIsSpace c = true) : pyWordsStep c r = (pyWordsWrap r, []) := by
  simp [pyWordsStep, pyWordsWrap, h]

theorem pyWordsStep_nonspace (c : Char) (r : List (List Char) × List Char)
    (h : pyIsSpace c = false) : pyWordsStep c r = (r.1, c :: r.2) := by
  simp [pyWordsStep, h]

/-- Joining nonempty whitespace-free words with single spaces and re-splitting
returns the original word list. -/
theorem pyWords_intercalate (ws : List (List Char))
    (h : ∀ w ∈ ws, w ≠ [] ∧ ∀ c ∈ w, pyIsSpace c = false) :
    pyWords (List.intercalate [' '] ws) = ws := by
  induction ws with
  | nil => rfl
  | cons w rest ih =>
    obtain ⟨hw1, hw2⟩ := h w (by simp)
    cases rest with
    | nil =>
      rw [intercalate_singleton]
      unfold pyWords
      rw [foldr_pyWordsStep_word w hw2]
      simp [pyWordsWrap, List.isEmpty_iff, hw1]
    | cons w2 rest2 =>
      have hrest : ∀ x ∈ w2 :: rest2, x ≠ [] ∧ ∀ c ∈ x, pyIsSpace c = false :=
        fun x hx => h x (by simp [hx])
      have ihr := ih hrest
      rw [intercalate_cons₂]
      unfold pyWords at ihr ⊢
      rw [List.foldr_append, List.foldr_append, List.foldr_cons,
        List.foldr_nil, pyWordsStep_space _ _ (by decide), ihr,
        foldr_pyWordsStep_word w hw2]
      simp [pyWordsWrap, List.isEmpty_iff, hw1]

theorem foldr_pyWordsStep_inv (cs : List Char) :
    (∀ w ∈ (cs.foldr pyWordsStep ([], [])).1,
        w ≠ [] ∧ ∀ c ∈ w, pyIsSpace c = false)
      ∧ ∀ c ∈ (cs.foldr pyWordsStep ([], [])).2, pyIsSpace c = false := by
  induction cs with
  | nil => exact ⟨by simp, by simp⟩
  | cons c rest ih =>
    obtain ⟨ih1, ih2⟩ := ih
    rw [List.foldr_cons]
    cases hsp : pyIsSpace c with
    | true =>
      rw [pyWordsStep_space c _ hsp]
      refine ⟨?_, by simp⟩
      intro w hw
      unfold pyWordsWrap at hw
      by_cases he : (List.foldr pyWordsStep ([], []) rest).2.isEmpty
      · rw [if_pos he] at hw
        exact ih1 w hw
      · rw [if_neg he] at hw
        rcases List.mem_cons.mp hw with heq | hmem
        · subst heq
          exact ⟨fun hnil => he (by simp [hnil]), ih2⟩
        · exact ih1 w hmem
    | false =>
      rw [pyWordsStep_nonspace c _ hsp]
      refine ⟨ih1, ?_⟩
      intro x hx
      rcases List.mem_cons.mp hx with heq | hmem
      · subst heq; exact hsp
      · exact ih2 x hmem

/-- Every word produced by `pyWords` is nonempty and whitespace-free. -/
theorem pyWords_sound (cs : List Char) :
    ∀ w ∈ pyWords cs, w ≠ [] ∧ ∀ c ∈ w, pyIsSpace c = false := by
  intro w hw
  obtain ⟨m1, m2⟩ := foldr_pyWordsStep_inv cs
  unfold pyWords pyWordsWrap at hw
  by_cases he : (cs.foldr pyWordsStep ([], [])).2.isEmpty
  · rw [if_pos he] at hw
    exact m1 w hw
  · rw [if_neg he] at hw
    rcases List.mem_cons.mp hw with heq | hmem
    · subst heq
      exact ⟨fun hnil => he (by simp [hnil]), m2⟩
    · exact m1 w hmem

theorem wordCount_repeatedWords (n : Nat) : wordCount (repeatedWords n) = n := by
  unfold wordCount repeatedWords
  show (pyWords (List.intercalate [' '] (List.replicate n ['w']))).length = n
  rw [pyWords_intercalate]
  · simp
  · intro w hw
    rw [List.eq_of_mem_replicate hw]
    exact ⟨by decide, by decide⟩

/-! ## Reading time: exact characterization of `max(1, round(words / 200))` -/

theorem pyRound_div200 (w : ℕ) :
    pyRound ((w : ℚ) / 200) =
      if w % 200 < 100 then ((w / 200 : ℕ) : ℤ)
      else if 100 < w % 200 then ((w / 200 : ℕ) : ℤ) + 1
      else if (w / 200) % 2 = 0 then ((w / 200 : ℕ) : ℤ)
      else ((w / 200 : ℕ) : ℤ) + 1 := by
  have h200 : ((200 : ℕ) : ℚ) = (200 : ℚ) := by norm_num
  have hfl : ⌊((w : ℚ) / 200)⌋ = ((w / 200 : ℕ) : ℤ) := by
    rw [← h200, Rat.floor_natCast_div_natCast]
    exact_mod_cast rfl
  have hsplitN : w / 200 * 200 + w % 200 = w := by omega
  have hsplit : ((w / 200 : ℕ) : ℚ) * 200 + ((w % 200 : ℕ) : ℚ) = (w : ℚ) := by
    calc ((w / 200 : ℕ) : ℚ) * 200 + ((w % 200 : ℕ) : ℚ)
        = ((w / 200 * 200 + w % 200 : ℕ) : ℚ) := by push_cast; ring
      _ = (w : ℚ) := by rw [hsplitN]
  have hfrac : (w : ℚ) / 200 - ((w / 200 : ℕ) : ℚ) = ((w % 200 : ℕ) : ℚ) / 200 := by
    field_simp
    linarith [hsplit]
  have hlt : (((w % 200 : ℕ) : ℚ) / 200 < 1 / 2) ↔ (w % 200 < 100) := by
    rw [div_lt_div_iff (by norm_num) (by norm_num)]
    constructor
    · intro h
      have : (w % 200) * 2 < 1 * 200 := by exact_mod_cast h
      omega
    · intro h
      have : (w % 200) * 2 < 1 * 200 := by omega
      exact_mod_cast this
  have hgt : ((1 : ℚ) / 2 < ((w % 200 : ℕ) : ℚ) / 200) ↔ (100 < w % 200) := by
    rw [div_lt_div_iff (by norm_num) (by norm_num)]
    constructor
    · intro h
      have : 1 * 200 < (w % 200) * 2 := by exact_mod_cast h
      omega
    · intro h
      have : 1 * 200 < (w % 200) * 2 := by omega
      exact_mod_cast this
  have hpar : (((w / 200 : ℕ) : ℤ) % 2 = 0) ↔ ((w / 200) % 2 = 0) := by omega
  have hc : (w : ℚ) / 200 - (((w / 200 : ℕ) : ℤ) : ℚ) = ((w % 200 : ℕ) : ℚ) / 200 := by
    rw [Int.cast_natCast]
    exact hfrac
  unfold pyRound
  rw [hfl, hc]
  simp only [hlt, hgt, hpar]

/-- `calculate_reading_time` computes `natReadingTime` of the word count. -/
theorem calculate_reading_time_eq (content : String) :
    calculate_reading_time content = natReadingTime (wordCount content) := by
  unfold calculate_reading_time natReadingTime
  rw [pyRound_div200]
  split_ifs <;> omega

/-! ## Claim C3 (corrected): reading time is round-half-even, not ceiling -/

/-- C3 (amended): for every body, the computed reading time is
`wordCount / 200` rounded to the *nearest* integer with ties to even (Python's
`round`), with a minimum of 1 — not the ceiling; the two quoted examples
(400 words ↦ 2, 50 words ↦ 1) do hold. -/
theorem reading_time_round_half_even :
    (∀ content : String,
        calculate_reading_time content = natReadingTime (wordCount content))
    ∧ calculate_reading_time (repeatedWords 400) = 2
    ∧ calculate_reading_time (repeatedWords 50) = 1 := by
  refine ⟨calculate_reading_time_eq, ?_, ?_⟩ <;>
    rw [calculate_reading_time_eq, wordCount_repeatedWords] <;> decide

/-- C3 counterexample: a 201-word body gets reading time 1, while the claimed
formula ⌈wordCount/200⌉ (with minimum 1) gives 2. -/
theorem reading_time_not_ceiling :
    calculate_reading_time (repeatedWords 201) = 1
    ∧ (max 1 ⌈((wordCount (repeatedWords 201) : ℚ)) / 200⌉).toNat = 2 := by
  constructor
  · rw [calculate_reading_time_eq, wordCount_repeatedWords]; decide
  · rw [wordCount_repeatedWords]
    have hceil : ⌈((201 : ℕ) : ℚ) / 200⌉ = 2 := by
      rw [Int.ceil_eq_iff]
      constructor <;> norm_num
    rw [hceil]
    rfl

/-! ## Claim C1 (code_bug): page ids collide; the levels-length invariant holds -/

/-- C1: the `levels`/`levelsRaw`/`depth` length invariant of
`get_page_hierarchy` holds for every path, but `generate_page_id` is *not*
injective on distinct relative paths: `a/b.md` and `a-b.md` both get id
`a-b` (the docstring "Generate unique page ID" and the spec's uniqueness
invariant are violated). -/
theorem page_hierarchy_lengths_and_id_collision :
    (∀ (dirs : List String) (stripPre : Bool) (acr : List (List Char))
        (ov : List (String × String)),
        (get_page_hierarchy dirs stripPre acr ov).levels.length
            = (get_page_hierarchy dirs stripPre acr ov).levels_raw.length
          ∧ (get_page_hierarchy dirs stripPre acr ov).depth
            = (get_page_hierarchy dirs stripPre acr ov).levels.length)
    ∧ generate_page_id ["a"] "b" = "a-b"
    ∧ generate_page_id [] "a-b" = "a-b" := by
  refine ⟨fun dirs sp acr ov => ⟨?_, ?_⟩, by decide, by decide⟩ <;>
    simp [get_page_hierarchy]

/-! ## Claim C5 (confirmed): capitalization behaviour -/

theorem capWord_eq_specCapWord (acronyms : List (List Char)) (i : Nat)
    (word : List Char) : capWord acronyms i word = specCapWord acronyms i word := by
  unfold capWord specCapWord
  by_cases h1 : pyLower word ∈ acronyms
  · simp [h1]
  · by_cases h2 : 2 ≤ word.length ∧ pyIsUpper word
    · simp [h1, h2]
    · by_cases h3 : pyLower word ∈ LOWERCASE_WORDS ∧ i ≠ 0
      · have h4 : ¬(i = 0 ∨ pyLower word ∉ LOWERCASE_WORDS) := by tauto
        simp [h1, h2, h3, h4]
      · have h4 : i = 0 ∨ pyLower word ∉ LOWERCASE_WORDS := by tauto
        simp [h1, h2, h3, h4]

/-- C5: `capitalize_with_acronyms` transforms every word exactly as the spec
describes (`specCapWord`, with the acronym/uppercase checks taking precedence
over function-word lowering), and the two quoted examples hold. -/
theorem capitalize_with_acronyms_spec :
    (∀ (text : String) (acronyms : List (List Char)),
        capitalize_with_acronyms text acronyms =
          String.mk (List.intercalate [' ']
            ((pyWords text.data).enum.map
              (fun p => specCapWord acronyms p.1 p.2))))
    ∧ capitalize_with_acronyms "api testing" ["api".data] = "API Testing"
    ∧ capitalize_with_acronyms "TO DO list" [] = "TO DO List" := by
  refine ⟨fun text acronyms => ?_, by decide, by decide⟩
  unfold capitalize_with_acronyms
  simp only [capWord_eq_specCapWord]

/-! ## Claim C4 (confirmed): the scanner's exclusion rule -/

theorem is_valid_name_iff (n : String) :
    is_valid_name n = true ↔ ¬ specInvalidName n := by
  unfold is_valid_name specInvalidName
  rw [Bool.and_eq_true, List.any_eq_true]
  constructor
  · rintro ⟨-, c, hc, hal⟩ hspec
    exact hspec c hc hal
  · intro h
    push_neg at h
    obtain ⟨c, hc, hal⟩ := h
    refine ⟨?_, c, hc, hal⟩
    simp only [Bool.not_eq_eq_eq_not, Bool.not_true, List.isEmpty_eq_false_iff_exists_mem]
    exact ⟨c, hc⟩

theorem keepFile_iff (cd ex : List String) (f : MdFile) :
    keepFile cd ex f = true ↔ ¬ specExcluded cd ex f := by
  unfold keepFile specExcluded
  rw [Bool.and_eq_true, Bool.and_eq_true, Bool.and_eq_true]
  constructor
  · rintro ⟨⟨⟨h1, h2⟩, h3⟩, h4⟩
    rintro (hx | hx | hx | hx)
    · rw [Bool.not_eq_true', beq_eq_false_iff_ne] at h1
      exact h1 hx
    · obtain ⟨seg, hseg, hsegex⟩ := hx
      rw [Bool.not_eq_true', List.any_eq_false] at h2
      exact h2 seg hsegex (List.elem_eq_true_of_mem hseg)
    · exact ((is_valid_name_iff f.stem).mp h3) hx
    · obtain ⟨d, hd, hinv⟩ := hx
      rw [List.all_eq_true] at h4
      exact ((is_valid_name_iff d).mp (h4 d hd)) hinv
  · intro hx
    push_neg at hx
    obtain ⟨h1, h2, h3, h4⟩ := hx
    refine ⟨⟨⟨?_, ?_⟩, ?_⟩, ?_⟩
    · rw [Bool.not_eq_true', beq_eq_false_iff_ne]
      exact h1
    · rw [Bool.not_eq_true', List.any_eq_false]
      intro e he hc
      exact h2 e (List.mem_of_elem_eq_true hc) he
    · exact (is_valid_name_iff f.stem).mpr h3
    · rw [List.all_eq_true]
      intro d hd
      exact (is_valid_name_iff d).mpr (h4 d hd)

/-- C4: a Markdown file under the content directory appears in the scanner's
output exactly when the spec's exclusion rule does not hit it: it is not named
`index.md`, no segment of its (full) path is an excluded folder, and its stem
and every folder segment of its relative path are valid. -/
theorem scan_directory_mem (cd ex : List String) (files : List MdFile)
    (f : MdFile) (h : f ∈ files) :
    f ∈ scan_directory true cd ex files ↔ ¬ specExcluded cd ex f := by
  unfold scan_directory selectFiles
  simp only [Bool.not_true, Bool.false_eq_true, if_false]
  rw [List.mem_mergeSort, List.mem_filter]
  simp [h, keepFile_iff]

theorem scan_directory_mem_witness :
    (⟨[], "hello"⟩ : MdFile) ∈
        scan_directory true ["notes"] DEFAULT_EXCLUDE_FOLDERS [⟨[], "hello"⟩]
      ↔ ¬ specExcluded ["notes"] DEFAULT_EXCLUDE_FOLDERS ⟨[], "hello"⟩ :=
  scan_directory_mem ["notes"] DEFAULT_EXCLUDE_FOLDERS [⟨[], "hello"⟩]
    ⟨[], "hello"⟩ (by decide)

/-! ## Claim C10 (confirmed): excluded ancestors of the content dir kill the scan -/

/-- C10: the excluded-folder test runs over the file's *full* path, content
directory included; if any segment of the content directory's own path is in
the excluded set, every file is skipped and the scan returns an empty list. -/
theorem scan_directory_ancestor_excluded (dirExists : Bool)
    (cd ex : List String) (files : List MdFile)
    (h : ∃ seg ∈ cd, seg ∈ ex) :
    scan_directory dirExists cd ex files = [] := by
  obtain ⟨seg, hseg, hex⟩ := h
  unfold scan_directory selectFiles
  cases dirExists with
  | false => simp
  | true =>
    simp only [Bool.not_true, Bool.false_eq_true, if_false]
    have hfilter : files.filter (keepFile cd ex) = [] := by
      rw [List.filter_eq_nil_iff]
      intro f hf
      rw [Bool.not_eq_true, keepFile]
      have hany : ex.any (fun e => (fileParts cd f).contains e) = true := by
        rw [List.any_eq_true]
        exact ⟨seg, hex, List.elem_eq_true_of_mem (by simp [fileParts, hseg])⟩
      rw [hany]
      simp
    rw [hfilter]
    exact List.mergeSort_nil

theorem scan_directory_ancestor_excluded_witness :
    scan_directory true ["home", ".git", "notes"] DEFAULT_EXCLUDE_FOLDERS
      [⟨["sub"], "hello"⟩] = [] :=
  scan_directory_ancestor_excluded true ["home", ".git", "notes"]
    DEFAULT_EXCLUDE_FOLDERS [⟨["sub"], "hello"⟩] (by decide)

/-! ## Claim C2 (corrected): empty scan aborts with a diagnostic but exit code 0 -/

/-- C2 (amended): when the content directory is missing or the scan yields no
pages, the run aborts at run level with a diagnostic and generates nothing,
but the process exit status is 0 (success) — not non-zero as the spec
claims. -/
theorem generate_site_empty_scan_aborts (dirExists : Bool)
    (cd ex : List String) (files : List MdFile)
    (h : (scan_directory dirExists cd ex files).isEmpty = true) :
    (generate_site_run dirExists cd ex files).generated = false
    ∧ "[!] No markdown files found!"
        ∈ (generate_site_run dirExists cd ex files).diagnostics
    ∧ (generate_site_run dirExists cd ex files).exitCode = 0 := by
  unfold generate_site_run
  rw [if_pos h]
  refine ⟨rfl, ?_, rfl⟩
  exact List.mem_append.mpr (Or.inr (by simp))

theorem generate_site_empty_scan_aborts_witness :
    (generate_site_run false ["input", "notes"] DEFAULT_EXCLUDE_FOLDERS []).generated = false
    ∧ "[!] No markdown files found!"
        ∈ (generate_site_run false ["input", "notes"] DEFAULT_EXCLUDE_FOLDERS []).diagnostics
    ∧ (generate_site_run false ["input", "notes"] DEFAULT_EXCLUDE_FOLDERS []).exitCode = 0 :=
  generate_site_empty_scan_aborts false ["input", "notes"]
    DEFAULT_EXCLUDE_FOLDERS [] (by decide)

/-- C2 counterexample: with the content directory missing, the run prints the
diagnostics and aborts, yet the process outcome is exit code 0, contradicting
the claimed non-zero outcome. -/
theorem generate_site_missing_dir_exit_zero :
    (generate_site_run false ["input", "notes"] DEFAULT_EXCLUDE_FOLDERS []).exitCode = 0
    ∧ "[!] Content directory not found"
        ∈ (generate_site_run false ["input", "notes"] DEFAULT_EXCLUDE_FOLDERS []).diagnostics
    ∧ (generate_site_run false ["input", "notes"] DEFAULT_EXCLUDE_FOLDERS []).generated = false := by
  refine ⟨rfl, ?_, rfl⟩
  decide

/-! ## Claim C7 (confirmed): the legacy `%` frontmatter format -/

theorem percentLoop_eq (lines : List (List Char)) (fm : List (String × String)) :
    percentLoop lines fm
      = ((lines.takeWhile startsPercent).foldl parsePercentLine fm,
         lines.dropWhile startsPercent) := by
  induction lines generalizing fm with
  | nil => rfl
  | cons l rest ih =>
    unfold percentLoop
    cases hl : startsPercent l with
    | true => simp [hl, ih, List.takeWhile_cons, List.dropWhile_cons]
    | false => simp [hl, List.takeWhile_cons, List.dropWhile_cons]

/-- C7: for a document starting with `%`, the parsed frontmatter is exactly
the fold of `parsePercentLine` over the leading run of `%` lines, the header
ends at the first non-`%` line, and everything from that line on is body —
even lines that again start with `%` (the concrete example shows a later
`% Later: y` line staying in the body, and the key normalization
`Title Name ↦ title_name`). -/
theorem parse_frontmatter_percent (content : String)
    (h : startsPercent content.data = true) :
    (parse_frontmatter content).1
        = ((splitOnChar '\n' content.data).takeWhile startsPercent).foldl
            parsePercentLine []
    ∧ (parse_frontmatter content).2
        = String.mk (pyStrip (List.intercalate ['\n']
            ((splitOnChar '\n' content.data).dropWhile startsPercent)))
    ∧ parse_frontmatter "% Title Name: X\nbody\n% Later: y"
        = ([("title_name", "X")], "body\n% Later: y") := by
  refine ⟨?_, ?_, by decide⟩ <;>
    · unfold parse_frontmatter
      rw [if_pos h, percentLoop_eq]

theorem parse_frontmatter_percent_witness :
    (parse_frontmatter "%A: b\nrest").1
        = ((splitOnChar '\n' ("%A: b\nrest").data).takeWhile startsPercent).foldl
            parsePercentLine []
    ∧ (parse_frontmatter "%A: b\nrest").2
        = String.mk (pyStrip (List.intercalate ['\n']
            ((splitOnChar '\n' ("%A: b\nrest").data).dropWhile startsPercent)))
    ∧ parse_frontmatter "% Title Name: X\nbody\n% Later: y"
        = ([("title_name", "X")], "body\n% Later: y") :=
  parse_frontmatter_percent "%A: b\nrest" (by decide)

/-! ## Character-level lemmas about ASCII case mapping -/

theorem char_eq_iff_toNat (a b : Char) : a = b ↔ a.toNat = b.toNat := by
  constructor
  · intro h; rw [h]
  · intro h; exact Char.ext (UInt32.ext h)

theorem char_toNat_ofNat (n : Nat) (h : n < 55296) : (Char.ofNat n).toNat = n := by
  have hv : n.isValidChar := Or.inl h
  simp only [Char.ofNat, hv, dif_pos]
  simp [Char.ofNatAux, Char.toNat, UInt32.toNat, UInt32.ofNatCore]

theorem toNat_toUpper (c : Char) :
    c.toUpper.toNat = if c.toNat ≥ 97 ∧ c.toNat ≤ 122 then c.toNat - 32 else c.toNat := by
  simp only [Char.toUpper]
  by_cases h : c.toNat ≥ 97 ∧ c.toNat ≤ 122
  · rw [if_pos h, if_pos h, char_toNat_ofNat _ (by omega)]
  · rw [if_neg h, if_neg h]

theorem toNat_toLower (c : Char) :
    c.toLower.toNat = if c.toNat ≥ 65 ∧ c.toNat ≤ 90 then c.toNat + 32 else c.toNat := by
  simp only [Char.toLower]
  by_cases h : c.toNat ≥ 65 ∧ c.toNat ≤ 90
  · have hlt : c.toNat + 32 < 55296 := by omega
    rw [if_pos h, if_pos h, char_toNat_ofNat _ hlt]
  · rw [if_neg h, if_neg h]

theorem toLower_toUpper (c : Char) : c.toUpper.toLower = c.toLower := by
  rw [char_eq_iff_toNat]
  simp only [toNat_toLower, toNat_toUpper]
  split_ifs <;> omega

theorem toUpper_toUpper (c : Char) : c.toUpper.toUpper = c.toUpper := by
  rw [char_eq_iff_toNat]
  simp only [toNat_toUpper]
  split_ifs <;> omega

theorem toLower_toLower (c : Char) : c.toLower.toLower = c.toLower := by
  rw [char_eq_iff_toNat]
  simp only [toNat_toLower]
  split_ifs <;> omega

theorem toUpper_eq_self_or_range (c : Char) :
    c.toUpper = c ∨ (65 ≤ c.toUpper.toNat ∧ c.toUpper.toNat ≤ 90) := by
  by_cases h : c.toNat ≥ 97 ∧ c.toNat ≤ 122
  · right
    rw [toNat_toUpper, if_pos h]
    omega
  · left
    rw [char_eq_iff_toNat, toNat_toUpper, if_neg h]

theorem toLower_eq_self_or_range (c : Char) :
    c.toLower = c ∨ (97 ≤ c.toLower.toNat ∧ c.toLower.toNat ≤ 122) := by
  by_cases h : c.toNat ≥ 65 ∧ c.toNat ≤ 90
  · right
    rw [toNat_toLower, if_pos h]
    omega
  · left
    rw [char_eq_iff_toNat, toNat_toLower, if_neg h]

theorem pyIsSpace_iff_toNat (c : Char) :
    pyIsSpace c = true ↔
      (c.toNat = 32 ∨ c.toNat = 9 ∨ c.toNat = 10 ∨ c.toNat = 13
        ∨ c.toNat = 11 ∨ c.toNat = 12) := by
  unfold pyIsSpace
  simp only [Bool.or_eq_true, decide_eq_true_eq]
  rw [char_eq_iff_toNat, char_eq_iff_toNat, char_eq_iff_toNat,
    char_eq_iff_toNat, char_eq_iff_toNat, char_eq_iff_toNat]
  simp only [show (' ' : Char).toNat = 32 from rfl,
    show ('\t' : Char).toNat = 9 from rfl, show ('\n' : Char).toNat = 10 from rfl,
    show ('\r' : Char).toNat = 13 from rfl, show ('\x0b' : Char).toNat = 11 from rfl,
    show ('\x0c' : Char).toNat = 12 from rfl]
  tauto

theorem pyIsSpace_toUpper (c : Char) (h : pyIsSpace c = false) :
    pyIsSpace c.toUpper = false := by
  rcases toUpper_eq_self_or_range c with heq | hrange
  · rwa [heq]
  · rw [← Bool.not_eq_true, pyIsSpace_iff_toNat]
    omega

theorem pyIsSpace_toLower (c : Char) (h : pyIsSpace c = false) :
    pyIsSpace c.toLower = false := by
  rcases toLower_eq_self_or_range c with heq | hrange
  · rwa [heq]
  · rw [← Bool.not_eq_true, pyIsSpace_iff_toNat]
    omega

theorem toUpper_ne_of_ne (c d : Char) (hc : c ≠ d)
    (hd : d.toNat < 65 ∨ 90 < d.toNat) : c.toUpper ≠ d := by
  rcases toUpper_eq_self_or_range c with heq | hrange
  · rwa [heq]
  · intro h
    rw [char_eq_iff_toNat] at h
    omega

theorem toLower_ne_of_ne (c d : Char) (hc : c ≠ d)
    (hd : d.toNat < 97 ∨ 122 < d.toNat) : c.toLower ≠ d := by
  rcases toLower_eq_self_or_range c with heq | hrange
  · rwa [heq]
  · intro h
    rw [char_eq_iff_toNat] at h
    omega

/-! ## Lemmas about the Python string operations -/

theorem pyLower_pyUpper (w : List Char) : pyLower (pyUpper w) = pyLower w := by
  unfold pyLower pyUpper
  rw [List.map_map]
  exact List.map_congr_left (fun c _ => toLower_toUpper c)

theorem pyUpper_pyUpper (w : List Char) : pyUpper (pyUpper w) = pyUpper w := by
  unfold pyUpper
  rw [List.map_map]
  exact List.map_congr_left (fun c _ => toUpper_toUpper c)

theorem pyLower_pyLower (w : List Char) : pyLower (pyLower w) = pyLower w := by
  unfold pyLower
  rw [List.map_map]
  exact List.map_congr_left (fun c _ => toLower_toLower c)

theorem pyCapitalize_cons (c : Char) (cs : List Char) :
    pyCapitalize (c :: cs) = Char.toUpper c :: cs.map Char.toLower := rfl

theorem pyLower_pyCapitalize (w : List Char) :
    pyLower (pyCapitalize w) = pyLower w := by
  cases w with
  | nil => rfl
  | cons c cs =>
    rw [pyCapitalize_cons]
    unfold pyLower
    rw [List.map_cons, List.map_cons, List.map_map, toLower_toUpper]
    exact congrArg _ (List.map_congr_left (fun c _ => toLower_toLower c))

theorem pyCapitalize_pyCapitalize (w : List Char) :
    pyCapitalize (pyCapitalize w) = pyCapitalize w := by
  cases w with
  | nil => rfl
  | cons c cs =>
    rw [pyCapitalize_cons, pyCapitalize_cons, toUpper_toUpper, List.map_map]
    exact congrArg _ (List.map_congr_left (fun c _ => toLower_toLower c))

/-- None of the fixed function words reads as fully uppercase. -/
theorem LOWERCASE_WORDS_not_upper :
    ∀ u ∈ LOWERCASE_WORDS, pyIsUpper u = false := by decide

/-! ## Idempotence of the per-word capitalization -/

theorem capWord_idem (acronyms : List (List Char)) (i : Nat) (w : List Char) :
    capWord acronyms i (capWord acronyms i w) = capWord acronyms i w := by
  simp only [capWord]
  by_cases h1 : pyLower w ∈ acronyms
  · rw [if_pos h1, if_pos (by rw [pyLower_pyUpper]; exact h1)]
    exact pyUpper_pyUpper w
  · rw [if_neg h1]
    by_cases h2 : 2 ≤ w.length ∧ pyIsUpper w
    · rw [if_pos h2, if_neg h1, if_pos h2]
    · rw [if_neg h2]
      by_cases h3 : i = 0 ∨ pyLower w ∉ LOWERCASE_WORDS
      · rw [if_pos h3, if_neg (by rw [pyLower_pyCapitalize]; exact h1)]
        by_cases h4 : 2 ≤ (pyCapitalize w).length ∧ pyIsUpper (pyCapitalize w)
        · rw [if_pos h4]
        · rw [if_neg h4,
            if_pos (by rw [pyLower_pyCapitalize]; exact h3)]
          exact pyCapitalize_pyCapitalize w
      · rw [if_neg h3]
        push_neg at h3
        obtain ⟨hi, hLW⟩ := h3
        rw [if_neg (by rw [pyLower_pyLower]; exact h1)]
        rw [if_neg (by
          rintro ⟨-, hup⟩
          rw [LOWERCASE_WORDS_not_upper (pyLower w) hLW] at hup
          exact Bool.false_ne_true hup)]
        rw [if_neg (by
          rw [pyLower_pyLower]
          rintro (hc | hc)
          · exact hi hc
          · exact hc hLW)]
        exact pyLower_pyLower w

theorem capWord_ne_nil (acronyms : List (List Char)) (i : Nat) (w : List Char)
    (hw : w ≠ []) : capWord acronyms i w ≠ [] := by
  simp only [capWord]
  split_ifs
  · simpa [pyUpper] using hw
  · exact hw
  · cases w with
    | nil => exact absurd rfl hw
    | cons c cs => simp [pyCapitalize_cons]
  · simpa [pyLower] using hw

theorem capWord_space_free (acronyms : List (List Char)) (i : Nat)
    (w : List Char) (hw : ∀ c ∈ w, pyIsSpace c = false) :
    ∀ c ∈ capWord acronyms i w, pyIsSpace c = false := by
  simp only [capWord]
  split_ifs
  · intro c hc
    obtain ⟨c0, hc0, rfl⟩ := List.mem_map.mp hc
    exact pyIsSpace_toUpper c0 (hw c0 hc0)
  · exact hw
  · intro c hc
    cases w with
    | nil => simp [pyCapitalize] at hc
    | cons a as =>
      rw [pyCapitalize_cons] at hc
      rcases List.mem_cons.mp hc with rfl | hmem
      · exact pyIsSpace_toUpper a (hw a (by simp))
      · obtain ⟨c0, hc0, rfl⟩ := List.mem_map.mp hmem
        exact pyIsSpace_toLower c0 (hw c0 (by simp [hc0]))
  · intro c hc
    obtain ⟨c0, hc0, rfl⟩ := List.mem_map.mp hc
    exact pyIsSpace_toLower c0 (hw c0 hc0)

/-- Every character of a `capWord` output is the input character, its
upper-casing, or its lower-casing, for some character of the input word. -/
theorem mem_capWord_origin (acronyms : List (List Char)) (i : Nat)
    (w : List Char) (c : Char) (hc : c ∈ capWord acronyms i w) :
    ∃ c0 ∈ w, c = c0 ∨ c = c0.toUpper ∨ c = c0.toLower := by
  revert hc
  simp only [capWord]
  split_ifs <;> intro hc
  · obtain ⟨c0, hc0, rfl⟩ := List.mem_map.mp hc
    exact ⟨c0, hc0, Or.inr (Or.inl rfl)⟩
  · exact ⟨c, hc, Or.inl rfl⟩
  · cases w with
    | nil => simp [pyCapitalize] at hc
    | cons a as =>
      rw [pyCapitalize_cons] at hc
      rcases List.mem_cons.mp hc with rfl | hmem
      · exact ⟨a, by simp, Or.inr (Or.inl rfl)⟩
      · obtain ⟨c0, hc0, rfl⟩ := List.mem_map.mp hmem
        exact ⟨c0, by simp [hc0], Or.inr (Or.inr rfl)⟩
  · obtain ⟨c0, hc0, rfl⟩ := List.mem_map.mp hc
    exact ⟨c0, hc0, Or.inr (Or.inr rfl)⟩

/-! ## Character provenance lemmas -/

theorem mem_intercalate_single {c : Char} {sep : List Char}
    {ws : List (List Char)} (h : c ∈ List.intercalate sep ws) :
    c ∈ sep ∨ ∃ w ∈ ws, c ∈ w := by
  induction ws with
  | nil => simp [List.intercalate] at h
  | cons w rest ih =>
    cases rest with
    | nil =>
      rw [intercalate_singleton] at h
      exact Or.inr ⟨w, by simp, h⟩
    | cons w2 rest2 =>
      rw [intercalate_cons₂] at h
      rcases List.mem_append.mp h with h1 | h2
      · rcases List.mem_append.mp h1 with ha | hb
        · exact Or.inr ⟨w, by simp, ha⟩
        · exact Or.inl hb
      · rcases ih h2 with hs | ⟨u, hu, hcu⟩
        · exact Or.inl hs
        · exact Or.inr ⟨u, by simp [hu], hcu⟩

theorem foldr_pyWordsStep_chars (cs : List Char) :
    (∀ w ∈ (cs.foldr pyWordsStep ([], [])).1, ∀ c ∈ w, c ∈ cs)
      ∧ ∀ c ∈ (cs.foldr pyWordsStep ([], [])).2, c ∈ cs := by
  induction cs with
  | nil => exact ⟨by simp, by simp⟩
  | cons a rest ih =>
    obtain ⟨ih1, ih2⟩ := ih
    rw [List.foldr_cons]
    cases hsp : pyIsSpace a with
    | true =>
      rw [pyWordsStep_space a _ hsp]
      refine ⟨?_, by simp⟩
      intro w hw c hc
      unfold pyWordsWrap at hw
      by_cases he : (List.foldr pyWordsStep ([], []) rest).2.isEmpty
      · rw [if_pos he] at hw
        exact List.mem_cons_of_mem a (ih1 w hw c hc)
      · rw [if_neg he] at hw
        rcases List.mem_cons.mp hw with heq | hmem
        · subst heq
          exact List.mem_cons_of_mem a (ih2 c hc)
        · exact List.mem_cons_of_mem a (ih1 w hmem c hc)
    | false =>
      rw [pyWordsStep_nonspace a _ hsp]
      refine ⟨fun w hw c hc => List.mem_cons_of_mem a (ih1 w hw c hc), ?_⟩
      intro c hc
      rcases List.mem_cons.mp hc with heq | hmem
      · subst heq; simp
      · exact List.mem_cons_of_mem a (ih2 c hmem)

theorem pyWords_chars (cs : List Char) :
    ∀ w ∈ pyWords cs, ∀ c ∈ w, c ∈ cs := by
  intro w hw c hc
  obtain ⟨m1, m2⟩ := foldr_pyWordsStep_chars cs
  unfold pyWords pyWordsWrap at hw
  by_cases he : (cs.foldr pyWordsStep ([], [])).2.isEmpty
  · rw [if_pos he] at hw
    exact m1 w hw c hc
  · rw [if_neg he] at hw
    rcases List.mem_cons.mp hw with heq | hmem
    · subst heq
      exact m2 c hc
    · exact m1 w hmem c hc

theorem snd_mem_of_mem_enumFrom {α : Type} :
    ∀ (l : List α) (n : Nat) (p : Nat × α), p ∈ l.enumFrom n → p.2 ∈ l := by
  intro l
  induction l with
  | nil => intro n p h; simp [List.enumFrom] at h
  | cons a rest ih =>
    intro n p h
    rw [List.enumFrom_cons] at h
    rcases List.mem_cons.mp h with heq | hmem
    · subst heq; simp
    · exact List.mem_cons_of_mem a (ih (n + 1) p hmem)

theorem snd_mem_of_mem_enum {α : Type} (l : List α) (p : Nat × α)
    (h : p ∈ l.enum) : p.2 ∈ l :=
  snd_mem_of_mem_enumFrom l 0 p (by simpa [List.enum] using h)

theorem replaceChar_eq_self (old new : Char) (cs : List Char)
    (h : ∀ c ∈ cs, c ≠ old) : replaceChar old new cs = cs := by
  unfold replaceChar
  rw [List.map_congr_left (fun c hc => if_neg (h c hc))]
  exact List.map_id cs

theorem mem_replaceChar (old new : Char) (cs : List Char) (c : Char)
    (h : c ∈ replaceChar old new cs) : c = new ∨ (c ∈ cs ∧ c ≠ old) := by
  unfold replaceChar at h
  obtain ⟨c0, hc0, hmap⟩ := List.mem_map.mp h
  by_cases he : c0 = old
  · rw [if_pos he] at hmap
    exact Or.inl hmap.symm
  · rw [if_neg he] at hmap
    exact Or.inr ⟨hmap ▸ hc0, hmap ▸ he⟩

/-! ## Idempotence of `capitalize_with_acronyms` -/

theorem map_enum_capWord_fixed (acronyms : List (List Char))
    (ws : List (List Char)) :
    ((ws.enum.map (fun p => capWord acronyms p.1 p.2)).enum.map
        (fun p => capWord acronyms p.1 p.2))
      = ws.enum.map (fun p => capWord acronyms p.1 p.2) := by
  apply List.ext_getElem
  · simp
  · intro i h1 h2
    simp only [List.getElem_map, List.getElem_enum]
    exact capWord_idem acronyms i _

theorem capitalize_with_acronyms_idem (t : String)
    (acronyms : List (List Char)) :
    capitalize_with_acronyms (capitalize_with_acronyms t acronyms) acronyms
      = capitalize_with_acronyms t acronyms := by
  unfold capitalize_with_acronyms
  have hws' : ∀ w ∈ (pyWords t.data).enum.map
      (fun p => capWord acronyms p.1 p.2),
      w ≠ [] ∧ ∀ c ∈ w, pyIsSpace c = false := by
    intro w hw
    obtain ⟨p, hp, rfl⟩ := List.mem_map.mp hw
    obtain ⟨h1, h2⟩ := pyWords_sound t.data p.2 (snd_mem_of_mem_enum _ p hp)
    exact ⟨capWord_ne_nil _ _ _ h1, capWord_space_free _ _ _ h2⟩
  have hA : pyWords (String.mk (List.intercalate [' ']
      ((pyWords t.data).enum.map (fun p => capWord acronyms p.1 p.2)))).data
      = (pyWords t.data).enum.map (fun p => capWord acronyms p.1 p.2) := by
    show pyWords (List.intercalate [' ']
      ((pyWords t.data).enum.map (fun p => capWord acronyms p.1 p.2))) = _
    exact pyWords_intercalate _ hws'
  rw [hA, map_enum_capWord_fixed]

/-! ## Claim C6 (corrected): formatter idempotence -/

/-- With `strip_prefix` on and an empty override map, `format_display_name`
reduces to stripping, separator conversion and capitalization. -/
theorem format_display_name_strip_empty (x : String)
    (acronyms : List (List Char)) :
    format_display_name x true acronyms []
      = capitalize_with_acronyms
          (String.mk (replaceChar '_' ' '
            (replaceChar '-' ' ' (stripNumPrefixL x.data))))
          acronyms := rfl

/-- C6 (amended): with an empty override map and any acronym set, the
formatter is idempotent on every input whose formatted form carries no
residual numeric prefix (`strip_number_prefix` leaves `format(x)` unchanged):
`format(format(x)) = format(x)`. -/
theorem format_display_name_idempotent (x : String)
    (acronyms : List (List Char))
    (h : strip_number_prefix (format_display_name x true acronyms [])
        = format_display_name x true acronyms []) :
    format_display_name (format_display_name x true acronyms []) true acronyms []
      = format_display_name x true acronyms [] := by
  have hdata : stripNumPrefixL (format_display_name x true acronyms []).data
      = (format_display_name x true acronyms []).data := congrArg String.data h
  have hnoDU : ∀ c ∈ (format_display_name x true acronyms []).data,
      c ≠ '-' ∧ c ≠ '_' := by
    rw [format_display_name_strip_empty]
    intro c hc
    rcases mem_intercalate_single hc with hsep | ⟨w, hw, hcw⟩
    · have : c = ' ' := by simpa using hsep
      subst this
      exact ⟨by decide, by decide⟩
    · obtain ⟨p, hp, rfl⟩ := List.mem_map.mp hw
      obtain ⟨c0, hc0, hcase⟩ := mem_capWord_origin _ _ _ c hcw
      have hc0x : c0 ∈ replaceChar '_' ' '
          (replaceChar '-' ' ' (stripNumPrefixL x.data)) :=
        pyWords_chars _ p.2 (snd_mem_of_mem_enum _ p hp) c0 hc0
      have hne : c0 ≠ '-' ∧ c0 ≠ '_' := by
        rcases mem_replaceChar '_' ' ' _ c0 hc0x with rfl | ⟨hc1, hne2⟩
        · exact ⟨by decide, by decide⟩
        · rcases mem_replaceChar '-' ' ' _ c0 hc1 with rfl | ⟨hc2, hne1⟩
          · exact ⟨by decide, by decide⟩
          · exact ⟨hne1, hne2⟩
      rcases hcase with rfl | rfl | rfl
      · exact hne
      · exact ⟨toUpper_ne_of_ne c0 '-' hne.1 (Or.inl (by decide)),
          toUpper_ne_of_ne c0 '_' hne.2 (Or.inr (by decide))⟩
      · exact ⟨toLower_ne_of_ne c0 '-' hne.1 (Or.inl (by decide)),
          toLower_ne_of_ne c0 '_' hne.2 (Or.inl (by decide))⟩
  rw [format_display_name_strip_empty
    (format_display_name x true acronyms []) acronyms, hdata,
    replaceChar_eq_self '-' ' ' _ (fun c hc => (hnoDU c hc).1),
    replaceChar_eq_self '_' ' ' _ (fun c hc => (hnoDU c hc).2)]
  show capitalize_with_acronyms (format_display_name x true acronyms [])
      acronyms = _
  rw [format_display_name_strip_empty x acronyms]
  exact capitalize_with_acronyms_idem _ acronyms

theorem format_display_name_idempotent_witness :
    format_display_name (format_display_name "hello-world" true [] []) true [] []
      = format_display_name "hello-world" true [] [] :=
  format_display_name_idempotent "hello-world" [] (by decide)

/-- C6 counterexample: even with empty acronym set and empty override map,
`format` is not idempotent as claimed: `format("-2-a") = "2 a"` (the leading
`-` blocks prefix stripping, then `-` becomes a space), but
`format("2 a") = "A"` (the second pass strips the now-leading `2`). -/
theorem format_display_name_not_idempotent :
    format_display_name "-2-a" true [] [] = "2 a"
    ∧ format_display_name (format_display_name "-2-a" true [] []) true [] [] = "A"
    ∧ format_display_name (format_display_name "-2-a" true [] []) true [] []
        ≠ format_display_name "-2-a" true [] [] := by
  exact ⟨by decide, by decide, by decide⟩

/-! ## Association-list lemmas for the navigation tree -/

theorem lookupChild_some_mem :
    ∀ (ch : List (String × NavNode)) (k : String) (c : NavNode),
      lookupChild ch k = some c → (k, c) ∈ ch := by
  intro ch
  induction ch with
  | nil => intro k c h; simp [lookupChild] at h
  | cons e rest ih =>
    intro k c h
    obtain ⟨k0, n0⟩ := e
    unfold lookupChild at h
    by_cases he : k0 = k
    · rw [if_pos he] at h
      injection h with h
      subst h; subst he
      exact List.mem_cons_self _ _
    · rw [if_neg he] at h
      exact List.mem_cons_of_mem _ (ih k c h)

theorem sizeOf_child_lt (t : NavNode) (k : String) (c : NavNode)
    (h : (k, c) ∈ t.children) : sizeOf c < sizeOf t := by
  have h1 := List.sizeOf_lt_of_mem h
  cases t with
  | mk d ch ps =>
    simp only [NavNode.children] at h1
    simp_arith at h1 ⊢
    omega

theorem TreeEquiv_refl_aux :
    ∀ (n : Nat) (t : NavNode), sizeOf t ≤ n → TreeEquiv t t := by
  intro n
  induction n with
  | zero =>
    intro t h
    cases t with
    | mk d ch ps => simp_arith at h
  | succ n ih =>
    intro t h
    refine TreeEquiv.intro t t rfl (List.Perm.refl _) (fun k => Iff.rfl) ?_
    intro k c1 c2 h1 h2
    rw [h1] at h2
    injection h2 with h2
    subst h2
    have hlt := sizeOf_child_lt t k c1 (lookupChild_some_mem _ _ _ h1)
    exact ih c1 (by omega)

theorem TreeEquiv_refl (t : NavNode) : TreeEquiv t t :=
  TreeEquiv_refl_aux (sizeOf t) t le_rfl

theorem TreeEquiv_trans :
    ∀ {t1 t2 t3 : NavNode}, TreeEquiv t1 t2 → TreeEquiv t2 t3 →
      TreeEquiv t1 t3 := by
  intro t1 t2 t3 h12
  induction h12 generalizing t3 with
  | intro a b hd hp hs hc ih =>
    intro h23
    cases h23 with
    | intro _ _ hd2 hp2 hs2 hc2 =>
      refine TreeEquiv.intro _ _ (hd.trans hd2) (hp.trans hp2)
        (fun k => (hs k).trans (hs2 k)) ?_
      intro k c1 c3 h1 h3
      have hsome : (lookupChild b.children k).isSome := by
        rw [← hs k, h1]
        rfl
      obtain ⟨c2, hc2'⟩ := Option.isSome_iff_exists.mp hsome
      exact ih k c1 c2 h1 hc2' (hc2 k c2 c3 hc2' h3)

theorem lookupChild_replaceChild_ne (key : String) (n : NavNode)
    (ch : List (String × NavNode)) (k : String) (hk : k ≠ key) :
    lookupChild (replaceChild key n ch) k = lookupChild ch k := by
  induction ch with
  | nil => rfl
  | cons e rest ih =>
    obtain ⟨k0, n0⟩ := e
    unfold replaceChild
    by_cases he : k0 = key
    · rw [if_pos he]
      unfold lookupChild
      rw [if_neg (by rw [he]; exact fun hx => hk hx.symm),
        if_neg (by rw [he]; exact fun hx => hk hx.symm)]
    · rw [if_neg he]
      unfold lookupChild
      by_cases he2 : k0 = k
      · rw [if_pos he2, if_pos he2]
      · rw [if_neg he2, if_neg he2]
        exact ih

theorem lookupChild_replaceChild_eq (key : String) (n : NavNode)
    (ch : List (String × NavNode)) (c : NavNode)
    (h : lookupChild ch key = some c) :
    lookupChild (replaceChild key n ch) key = some n := by
  induction ch with
  | nil => simp [lookupChild] at h
  | cons e rest ih =>
    obtain ⟨k0, n0⟩ := e
    unfold lookupChild at h
    unfold replaceChild
    by_cases he : k0 = key
    · rw [if_pos he]
      unfold lookupChild
      rw [if_pos he]
    · rw [if_neg he]
      unfold lookupChild
      rw [if_neg he]
      rw [if_neg he] at h
      exact ih h

theorem lookupChild_append_some (ch l2 : List (String × NavNode)) (k : String)
    (c : NavNode) (h : lookupChild ch k = some c) :
    lookupChild (ch ++ l2) k = some c := by
  induction ch with
  | nil => simp [lookupChild] at h
  | cons e rest ih =>
    obtain ⟨k0, n0⟩ := e
    simp only [List.cons_append, lookupChild] at h ⊢
    by_cases he : k0 = k
    · rwa [if_pos he] at h ⊢
    · rw [if_neg he] at h ⊢
      exact ih h

theorem lookupChild_append_none (ch l2 : List (String × NavNode)) (k : String)
    (h : lookupChild ch k = none) :
    lookupChild (ch ++ l2) k = lookupChild l2 k := by
  induction ch with
  | nil => rfl
  | cons e rest ih =>
    obtain ⟨k0, n0⟩ := e
    simp only [List.cons_append, lookupChild] at h ⊢
    by_cases he : k0 = k
    · rw [if_pos he] at h
      exact absurd h (by simp)
    · rw [if_neg he] at h ⊢
      exact ih h

/-! ## Shape lemmas for `insertWalk` -/

theorem insertWalk_nil (t : NavNode) (p : Page) :
    insertWalk t [] p = NavNode.mk t.display t.children (t.pages ++ [p]) := by
  cases t with
  | mk d ch ps => rfl

theorem insertWalk_cons_display (t : NavNode) (r d : String)
    (rest : List (String × String)) (p : Page) :
    (insertWalk t ((r, d) :: rest) p).display = t.display := by
  cases t with
  | mk d0 ch ps =>
    show (match lookupChild ch r with
      | some child => NavNode.mk d0 (replaceChild r (insertWalk child rest p) ch) ps
      | none =>
        NavNode.mk d0 (ch ++ [(r, insertWalk (.mk d [] []) rest p)]) ps).display
      = d0
    cases lookupChild ch r <;> rfl

theorem insertWalk_cons_pages (t : NavNode) (r d : String)
    (rest : List (String × String)) (p : Page) :
    (insertWalk t ((r, d) :: rest) p).pages = t.pages := by
  cases t with
  | mk d0 ch ps =>
    show (match lookupChild ch r with
      | some child => NavNode.mk d0 (replaceChild r (insertWalk child rest p) ch) ps
      | none =>
        NavNode.mk d0 (ch ++ [(r, insertWalk (.mk d [] []) rest p)]) ps).pages
      = ps
    cases lookupChild ch r <;> rfl

theorem lookup_insertWalk_self (t : NavNode) (r d : String)
    (rest : List (String × String)) (p : Page) :
    lookupChild (insertWalk t ((r, d) :: rest) p).children r
      = some (match lookupChild t.children r with
          | some c => insertWalk c rest p
          | none => insertWalk (.mk d [] []) rest p) := by
  cases t with
  | mk d0 ch ps =>
    rw [show (NavNode.mk d0 ch ps).children = ch from rfl]
    cases hl : lookupChild ch r with
    | some child =>
      show lookupChild (match lookupChild ch r with
        | some child =>
          NavNode.mk d0 (replaceChild r (insertWalk child rest p) ch) ps
        | none =>
          NavNode.mk d0 (ch ++ [(r, insertWalk (.mk d [] []) rest p)]) ps).children r
        = some (insertWalk child rest p)
      rw [hl]
      show lookupChild (replaceChild r (insertWalk child rest p) ch) r
        = some (insertWalk child rest p)
      exact lookupChild_replaceChild_eq r _ ch child hl
    | none =>
      show lookupChild (match lookupChild ch r with
        | some child =>
          NavNode.mk d0 (replaceChild r (insertWalk child rest p) ch) ps
        | none =>
          NavNode.mk d0 (ch ++ [(r, insertWalk (.mk d [] []) rest p)]) ps).children r
        = some (insertWalk (.mk d [] []) rest p)
      rw [hl]
      show lookupChild (ch ++ [(r, insertWalk (.mk d [] []) rest p)]) r
        = some (insertWalk (.mk d [] []) rest p)
      rw [lookupChild_append_none ch _ r hl]
      simp [lookupChild]

theorem lookup_insertWalk_other (t : NavNode) (r d : String)
    (rest : List (String × String)) (p : Page) (k : String) (hk : k ≠ r) :
    lookupChild (insertWalk t ((r, d) :: rest) p).children k
      = lookupChild t.children k := by
  cases t with
  | mk d0 ch ps =>
    rw [show (NavNode.mk d0 ch ps).children = ch from rfl]
    show lookupChild (match lookupChild ch r with
      | some child =>
        NavNode.mk d0 (replaceChild r (insertWalk child rest p) ch) ps
      | none =>
        NavNode.mk d0 (ch ++ [(r, insertWalk (.mk d [] []) rest p)]) ps).children k
      = lookupChild ch k
    cases hl : lookupChild ch r with
    | some child =>
      show lookupChild (replaceChild r (insertWalk child rest p) ch) k = _
      exact lookupChild_replaceChild_ne r _ ch k hk
    | none =>
      show lookupChild (ch ++ [(r, insertWalk (.mk d [] []) rest p)]) k = _
      cases hlk : lookupChild ch k with
      | some c => exact lookupChild_append_some ch _ k c hlk
      | none =>
        rw [lookupChild_append_none ch _ k hlk]
        simp only [lookupChild, if_neg (fun hx : r = k => hk hx.symm)]

/-! ## Congruence and commutation of `insertWalk` -/

theorem TreeEquiv_display {t1 t2 : NavNode} (h : TreeEquiv t1 t2) :
    t1.display = t2.display := by
  cases h with
  | intro _ _ hd hp hs hc => exact hd

theorem TreeEquiv_pages {t1 t2 : NavNode} (h : TreeEquiv t1 t2) :
    t1.pages.Perm t2.pages := by
  cases h with
  | intro _ _ hd hp hs hc => exact hp

theorem TreeEquiv_isSome {t1 t2 : NavNode} (h : TreeEquiv t1 t2) :
    ∀ k, (lookupChild t1.children k).isSome
      ↔ (lookupChild t2.children k).isSome := by
  cases h with
  | intro _ _ hd hp hs hc => exact hs

theorem TreeEquiv_at {t1 t2 : NavNode} (h : TreeEquiv t1 t2) :
    ∀ k c1 c2, lookupChild t1.children k = some c1 →
      lookupChild t2.children k = some c2 → TreeEquiv c1 c2 := by
  cases h with
  | intro _ _ hd hp hs hc => exact hc

/-- Two nodes with equal display, permuted pages, and identical child lookup
functions are isomorphic. -/
theorem TreeEquiv_of_parts (t1 t2 : NavNode) (hd : t1.display = t2.display)
    (hp : t1.pages.Perm t2.pages)
    (hl : ∀ k, lookupChild t1.children k = lookupChild t2.children k) :
    TreeEquiv t1 t2 := by
  refine TreeEquiv.intro _ _ hd hp (fun k => by rw [hl k]) ?_
  intro k c1 c2 h1 h2
  rw [hl k, h2] at h1
  injection h1 with h1
  subst h1
  exact TreeEquiv_refl _

/-- Two nodes that differ only at one child key, where the subtrees are
isomorphic, are isomorphic. -/
theorem TreeEquiv_upd (t1 t2 : NavNode) (r : String) (a b : NavNode)
    (hd : t1.display = t2.display) (hp : t1.pages.Perm t2.pages)
    (h1 : lookupChild t1.children r = some a)
    (h2 : lookupChild t2.children r = some b) (hab : TreeEquiv a b)
    (hother : ∀ k, k ≠ r →
      lookupChild t1.children k = lookupChild t2.children k) :
    TreeEquiv t1 t2 := by
  refine TreeEquiv.intro _ _ hd hp ?_ ?_
  · intro k
    by_cases hk : k = r
    · subst hk
      rw [h1, h2]
      simp
    · rw [hother k hk]
  · intro k c1 c2 hc1 hc2
    by_cases hk : k = r
    · subst hk
      rw [hc1] at h1
      rw [hc2] at h2
      injection h1 with h1
      injection h2 with h2
      rw [← h1, ← h2] at hab
      exact hab
    · rw [hother k hk, hc2] at hc1
      injection hc1 with hc1
      subst hc1
      exact TreeEquiv_refl _

theorem insertWalk_cong :
    ∀ (lv : List (String × String)) (t1 t2 : NavNode) (p : Page),
      TreeEquiv t1 t2 →
        TreeEquiv (insertWalk t1 lv p) (insertWalk t2 lv p) := by
  intro lv
  induction lv with
  | nil =>
    intro t1 t2 p h
    rw [insertWalk_nil, insertWalk_nil]
    refine TreeEquiv.intro _ _ ?_ ?_ ?_ ?_
    · show t1.display = t2.display
      exact TreeEquiv_display h
    · show (t1.pages ++ [p]).Perm (t2.pages ++ [p])
      exact (TreeEquiv_pages h).append_right [p]
    · show ∀ k, (lookupChild t1.children k).isSome
        ↔ (lookupChild t2.children k).isSome
      exact TreeEquiv_isSome h
    · show ∀ k c1 c2, lookupChild t1.children k = some c1 →
        lookupChild t2.children k = some c2 → TreeEquiv c1 c2
      exact TreeEquiv_at h
  | cons rd rest ih =>
    intro t1 t2 p h
    obtain ⟨r, d⟩ := rd
    refine TreeEquiv.intro _ _ ?_ ?_ ?_ ?_
    · rw [insertWalk_cons_display, insertWalk_cons_display]
      exact TreeEquiv_display h
    · rw [insertWalk_cons_pages, insertWalk_cons_pages]
      exact TreeEquiv_pages h
    · intro k
      by_cases hk : k = r
      · subst hk
        rw [lookup_insertWalk_self, lookup_insertWalk_self]
        simp
      · rw [lookup_insertWalk_other _ _ _ _ _ _ hk,
          lookup_insertWalk_other _ _ _ _ _ _ hk]
        exact TreeEquiv_isSome h k
    · intro k e1 e2 he1 he2
      by_cases hk : k = r
      · subst hk
        rw [lookup_insertWalk_self] at he1 he2
        injection he1 with he1
        injection he2 with he2
        subst he1
        subst he2
        cases hl1 : lookupChild t1.children k with
        | some c1 =>
          have h2s : (lookupChild t2.children k).isSome :=
            (TreeEquiv_isSome h k).mp (by rw [hl1]; rfl)
          obtain ⟨c2, hl2⟩ := Option.isSome_iff_exists.mp h2s
          rw [hl2]
          exact ih c1 c2 p (TreeEquiv_at h k c1 c2 hl1 hl2)
        | none =>
          have h2n : lookupChild t2.children k = none := by
            cases hl2 : lookupChild t2.children k with
            | none => rfl
            | some c2 =>
              have h1s : (lookupChild t1.children k).isSome :=
                (TreeEquiv_isSome h k).mpr (by rw [hl2]; rfl)
              rw [hl1] at h1s
              exact absurd h1s (by simp)
          rw [h2n]
          exact TreeEquiv_refl _
      · rw [lookup_insertWalk_other _ _ _ _ _ _ hk] at he1 he2
        exact TreeEquiv_at h k e1 e2 he1 he2

/-- Inserting into the root page list commutes (as an equality) with any
insertion that walks into a child. -/
theorem insertWalk_nil_cons_comm (t : NavNode) (px py : Page) (r d : String)
    (rest : List (String × String)) :
    insertWalk (insertWalk t [] px) ((r, d) :: rest) py
      = insertWalk (insertWalk t ((r, d) :: rest) py) [] px := by
  cases t with
  | mk d0 ch ps =>
    simp only [insertWalk]
    cases hl : lookupChild ch r <;> simp [insertWalk, hl]

/-- Two insertions commute up to tree isomorphism, provided the display name
attached to every level is a function of its raw name (so both insertions
would create a node with the same display). -/
theorem insertWalk_comm (f : String → String) (px py : Page) :
    ∀ (lx ly : List (String × String)) (t : NavNode),
      (∀ q ∈ lx, q.2 = f q.1) → (∀ q ∈ ly, q.2 = f q.1) →
      TreeEquiv (insertWalk (insertWalk t lx px) ly py)
        (insertWalk (insertWalk t ly py) lx px) := by
  intro lx
  induction lx with
  | nil =>
    intro ly t hx hy
    cases ly with
    | nil =>
      rw [insertWalk_nil, insertWalk_nil, insertWalk_nil, insertWalk_nil]
      refine TreeEquiv_of_parts _ _ rfl ?_ (fun k => rfl)
      show (t.pages ++ [px]) ++ [py] |>.Perm ((t.pages ++ [py]) ++ [px])
      rw [List.append_assoc, List.append_assoc]
      exact List.Perm.append_left t.pages (List.Perm.swap py px [])
    | cons rd rest =>
      obtain ⟨r, d⟩ := rd
      rw [insertWalk_nil_cons_comm]
      exact TreeEquiv_refl _
  | cons rd rest1 ih =>
    intro ly t hx hy
    obtain ⟨r1, d1⟩ := rd
    cases ly with
    | nil =>
      rw [insertWalk_nil_cons_comm t py px r1 d1 rest1]
      exact TreeEquiv_refl _
    | cons rd2 rest2 =>
      obtain ⟨r2, d2⟩ := rd2
      have hx1 : d1 = f r1 := hx (r1, d1) (by simp)
      have hy2 : d2 = f r2 := hy (r2, d2) (by simp)
      have hxr : ∀ q ∈ rest1, q.2 = f q.1 :=
        fun q hq => hx q (List.mem_cons_of_mem _ hq)
      have hyr : ∀ q ∈ rest2, q.2 = f q.1 :=
        fun q hq => hy q (List.mem_cons_of_mem _ hq)
      by_cases hr : r2 = r1
      · subst hr
        have hd12 : d1 = d2 := by rw [hx1, hy2]
        subst hd12
        refine TreeEquiv_upd _ _ r2
          (insertWalk
            (match lookupChild t.children r2 with
              | some c => insertWalk c rest1 px
              | none => insertWalk (.mk d1 [] []) rest1 px) rest2 py)
          (insertWalk
            (match lookupChild t.children r2 with
              | some c => insertWalk c rest2 py
              | none => insertWalk (.mk d1 [] []) rest2 py) rest1 px)
          ?_ ?_ ?_ ?_ ?_ ?_
        · rw [insertWalk_cons_display, insertWalk_cons_display,
            insertWalk_cons_display, insertWalk_cons_display]
        · rw [insertWalk_cons_pages, insertWalk_cons_pages,
            insertWalk_cons_pages, insertWalk_cons_pages]
        · rw [lookup_insertWalk_self, lookup_insertWalk_self]
        · rw [lookup_insertWalk_self, lookup_insertWalk_self]
        · cases hl : lookupChild t.children r2 with
          | some c => exact ih rest2 c hxr hyr
          | none => exact ih rest2 (.mk d1 [] []) hxr hyr
        · intro k hk
          rw [lookup_insertWalk_other _ _ _ _ _ _ hk,
            lookup_insertWalk_other _ _ _ _ _ _ hk,
            lookup_insertWalk_other _ _ _ _ _ _ hk,
            lookup_insertWalk_other _ _ _ _ _ _ hk]
      · refine TreeEquiv_of_parts _ _ ?_ ?_ ?_
        · rw [insertWalk_cons_display, insertWalk_cons_display,
            insertWalk_cons_display, insertWalk_cons_display]
        · rw [insertWalk_cons_pages, insertWalk_cons_pages,
            insertWalk_cons_pages, insertWalk_cons_pages]
        · intro k
          by_cases hk1 : k = r1
          · subst hk1
            rw [lookup_insertWalk_other _ _ _ _ _ _ (fun hx2 => hr hx2.symm),
              lookup_insertWalk_self, lookup_insertWalk_self,
              lookup_insertWalk_other _ _ _ _ _ _ (fun hx2 => hr hx2.symm)]
          · by_cases hk2 : k = r2
            · subst hk2
              rw [lookup_insertWalk_self,
                lookup_insertWalk_other _ _ _ _ _ _ hk1,
                lookup_insertWalk_other _ _ _ _ _ _ hk1,
                lookup_insertWalk_self]
            · rw [lookup_insertWalk_other _ _ _ _ _ _ hk2,
                lookup_insertWalk_other _ _ _ _ _ _ hk1,
                lookup_insertWalk_other _ _ _ _ _ _ hk1,
                lookup_insertWalk_other _ _ _ _ _ _ hk2]

/-! ## Claim C9 (corrected): order-independence of the tree builder -/

theorem foldl_insert_cong :
    ∀ (l : List Page) {t1 t2 : NavNode}, TreeEquiv t1 t2 →
      TreeEquiv
        (l.foldl (fun t p => insertWalk t (p.levels_raw.zip p.levels) p) t1)
        (l.foldl (fun t p => insertWalk t (p.levels_raw.zip p.levels) p) t2) := by
  intro l
  induction l with
  | nil => intro t1 t2 h; exact h
  | cons p rest ih =>
    intro t1 t2 h
    rw [List.foldl_cons, List.foldl_cons]
    exact ih (insertWalk_cong _ _ _ p h)

theorem zip_map_snd (f : String → String) (l : List String) :
    ∀ q ∈ l.zip (l.map f), q.2 = f q.1 := by
  induction l with
  | nil => simp
  | cons a rest ih =>
    intro q hq
    rw [List.map_cons, List.zip_cons_cons] at hq
    rcases List.mem_cons.mp hq with rfl | hmem
    · rfl
    · exact ih q hmem

theorem foldl_insert_perm (f : String → String) :
    ∀ {l1 l2 : List Page}, l1.Perm l2 →
      (∀ p ∈ l1, p.levels = p.levels_raw.map f) →
      ∀ t : NavNode,
        TreeEquiv
          (l1.foldl (fun t p => insertWalk t (p.levels_raw.zip p.levels) p) t)
          (l2.foldl (fun t p => insertWalk t (p.levels_raw.zip p.levels) p) t) := by
  intro l1 l2 hperm
  induction hperm with
  | nil => intro _ t; exact TreeEquiv_refl t
  | cons x h12 ih =>
    intro hc t
    rw [List.foldl_cons, List.foldl_cons]
    exact ih (fun p hp => hc p (List.mem_cons_of_mem x hp)) _
  | swap x y l =>
    intro hc t
    rw [List.foldl_cons, List.foldl_cons, List.foldl_cons, List.foldl_cons]
    apply foldl_insert_cong
    have hy := hc y (by simp)
    have hx := hc x (by simp [List.mem_cons_of_mem])
    exact insertWalk_comm f y x (y.levels_raw.zip y.levels)
      (x.levels_raw.zip x.levels) t
      (by rw [hy]; exact zip_map_snd f _)
      (by rw [hx]; exact zip_map_snd f _)
  | trans h1 h2 ih1 ih2 =>
    intro hc t
    exact TreeEquiv_trans (ih1 hc t)
      (ih2 (fun p hp => hc p (h1.mem_iff.mpr hp)) t)

/-- C9 (amended): when every page's display levels are the image of its raw
levels under one fixed naming function `f` (as holds for all Scanner-produced
pages, with `f` the display-name formatter), building the category tree from
any permutation of the page list yields an isomorphic tree: same nodes keyed
by raw folder names, same display names, and the same page membership at
every node. -/
theorem build_tree_order_independent (f : String → String)
    (l1 l2 : List Page) (hperm : l1.Perm l2)
    (hcons : ∀ p ∈ l1, p.levels = p.levels_raw.map f) :
    TreeEquiv (build_tree l1) (build_tree l2) := by
  unfold build_tree
  exact foldl_insert_perm f hperm hcons _

theorem build_tree_order_independent_witness :
    TreeEquiv
      (build_tree [⟨"p1", "u1", "t1", ["a"], ["A"]⟩,
        ⟨"p2", "u2", "t2", [], []⟩])
      (build_tree [⟨"p2", "u2", "t2", [], []⟩,
        ⟨"p1", "u1", "t1", ["a"], ["A"]⟩]) :=
  build_tree_order_independent (fun _ => "A")
    [⟨"p1", "u1", "t1", ["a"], ["A"]⟩, ⟨"p2", "u2", "t2", [], []⟩]
    [⟨"p2", "u2", "t2", [], []⟩, ⟨"p1", "u1", "t1", ["a"], ["A"]⟩]
    (by decide) (by decide)

/-- C9 counterexample: over arbitrary Page lists the claim fails.  Two pages
that disagree on the display name of the same raw folder produce trees whose
`a`-node carries display `X` in one order and `Y` in the other, so the trees
are not isomorphic in the claimed sense (isomorphism would force the display
names to agree). -/
theorem build_tree_not_order_independent :
    ¬ TreeEquiv
      (build_tree [⟨"p1", "u", "t", ["a"], ["X"]⟩,
        ⟨"p2", "u2", "t2", ["a"], ["Y"]⟩])
      (build_tree [⟨"p2", "u2", "t2", ["a"], ["Y"]⟩,
        ⟨"p1", "u", "t", ["a"], ["X"]⟩]) := by
  intro h
  have h1 : lookupChild
      (build_tree [⟨"p1", "u", "t", ["a"], ["X"]⟩,
        ⟨"p2", "u2", "t2", ["a"], ["Y"]⟩]).children "a"
      = some (NavNode.mk "X" []
          [⟨"p1", "u", "t", ["a"], ["X"]⟩, ⟨"p2", "u2", "t2", ["a"], ["Y"]⟩]) :=
    rfl
  have h2 : lookupChild
      (build_tree [⟨"p2", "u2", "t2", ["a"], ["Y"]⟩,
        ⟨"p1", "u", "t", ["a"], ["X"]⟩]).children "a"
      = some (NavNode.mk "Y" []
          [⟨"p2", "u2", "t2", ["a"], ["Y"]⟩, ⟨"p1", "u", "t", ["a"], ["X"]⟩]) :=
    rfl
  have hsub := TreeEquiv_at h "a" _ _ h1 h2
  have hdisp := TreeEquiv_display hsub
  exact absurd hdisp (by decide)

/-! ## Substring machinery for the navigation markup -/

theorem string_data_append (a b : String) : (a ++ b).data = a.data ++ b.data :=
  rfl

theorem infix_append_left {a b : List Char} (c : List Char) (h : a <:+: b) :
    a <:+: b ++ c := by
  obtain ⟨s, t, hst⟩ := h
  exact ⟨s, t ++ c, by rw [← hst]; simp⟩

theorem infix_append_right {a c : List Char} (b : List Char) (h : a <:+: c) :
    a <:+: b ++ c := by
  obtain ⟨s, t, hst⟩ := h
  exact ⟨b ++ s, t, by rw [← hst]; simp⟩

/-- The middle group of a three-part concatenation is a substring. -/
theorem infix_sandwich (x a y : String) : a.data <:+: (x ++ a ++ y).data := by
  rw [string_data_append, string_data_append]
  exact ⟨x.data, y.data, rfl⟩

theorem infix_concatAll {x : String} {l : List String} (hx : x ∈ l)
    {a : List Char} (h : a <:+: x.data) : a <:+: (concatAll l).data := by
  induction l with
  | nil => simp at hx
  | cons y rest ih =>
    rw [show concatAll (y :: rest) = y ++ concatAll rest from rfl,
      string_data_append]
    rcases List.mem_cons.mp hx with rfl | hmem
    · exact infix_append_left _ h
    · exact infix_append_right _ (ih hmem)

/-! ## Pages reached by the collector are pages of the tree -/

theorem mem_replaceChild (key : String) (n : NavNode) :
    ∀ (ch : List (String × NavNode)) (k' : String) (c' : NavNode),
      (k', c') ∈ replaceChild key n ch → (k', c') ∈ ch ∨ c' = n := by
  intro ch
  induction ch with
  | nil => intro k' c' h; simp [replaceChild] at h
  | cons e rest ih =>
    intro k' c' h
    obtain ⟨k0, n0⟩ := e
    unfold replaceChild at h
    by_cases he : k0 = key
    · rw [if_pos he] at h
      rcases List.mem_cons.mp h with heq | hmem
      · right
        exact congrArg Prod.snd heq
      · exact Or.inl (List.mem_cons_of_mem _ hmem)
    · rw [if_neg he] at h
      rcases List.mem_cons.mp h with heq | hmem
      · exact Or.inl (heq ▸ List.mem_cons_self _ _)
      · rcases ih k' c' hmem with h1 | h2
        · exact Or.inl (List.mem_cons_of_mem _ h1)
        · exact Or.inr h2

theorem PageIn_mk_empty (q : Page) (d : String) :
    ¬ PageIn q (.mk d [] []) := by
  intro h
  cases h with
  | here _ hmem => simp [NavNode.pages] at hmem
  | child _ k c hmem _ => simp [NavNode.children] at hmem

theorem PageIn_insertWalk (q p : Page) :
    ∀ (lv : List (String × String)) (t : NavNode),
      PageIn q (insertWalk t lv p) → PageIn q t ∨ q = p := by
  intro lv
  induction lv with
  | nil =>
    intro t h
    rw [insertWalk_nil] at h
    cases h with
    | here _ hmem =>
      simp only [NavNode.pages] at hmem
      rcases List.mem_append.mp hmem with h1 | h2
      · exact Or.inl (PageIn.here t h1)
      · right
        simpa using h2
    | child _ k c hmem hin =>
      simp only [NavNode.children] at hmem
      exact Or.inl (PageIn.child t k c hmem hin)
  | cons rd rest ih =>
    intro t h
    obtain ⟨r, d⟩ := rd
    cases t with
    | mk d0 ch ps =>
      revert h
      cases hl : lookupChild ch r with
      | some child =>
        intro h
        have h' : PageIn q
            (NavNode.mk d0 (replaceChild r (insertWalk child rest p) ch) ps) := by
          simpa only [insertWalk, hl] using h
        cases h' with
        | here _ hmem =>
          simp only [NavNode.pages] at hmem
          exact Or.inl (PageIn.here _ hmem)
        | child _ k c hmem hin =>
          simp only [NavNode.children] at hmem
          rcases mem_replaceChild r _ ch k c hmem with hmem2 | hceq
          · exact Or.inl (PageIn.child _ k c hmem2 hin)
          · subst hceq
            rcases ih child hin with h1 | h2
            · exact Or.inl
                (PageIn.child _ r child (lookupChild_some_mem ch r child hl) h1)
            · exact Or.inr h2
      | none =>
        intro h
        have h' : PageIn q
            (NavNode.mk d0 (ch ++ [(r, insertWalk (.mk d [] []) rest p)]) ps) := by
          simpa only [insertWalk, hl] using h
        cases h' with
        | here _ hmem =>
          simp only [NavNode.pages] at hmem
          exact Or.inl (PageIn.here _ hmem)
        | child _ k c hmem hin =>
          simp only [NavNode.children] at hmem
          rcases List.mem_append.mp hmem with hmem2 | hmem2
          · exact Or.inl (PageIn.child _ k c hmem2 hin)
          · have hpair : (k, c) = (r, insertWalk (.mk d [] []) rest p) := by
              simpa using hmem2
            have hc : c = insertWalk (.mk d [] []) rest p :=
              congrArg Prod.snd hpair
            subst hc
            rcases ih _ hin with h1 | h2
            · exact absurd h1 (PageIn_mk_empty q d)
            · exact Or.inr h2

theorem PageIn_foldl (q : Page) :
    ∀ (l : List Page) (t : NavNode),
      PageIn q
        (l.foldl (fun t p => insertWalk t (p.levels_raw.zip p.levels) p) t) →
      PageIn q t ∨ q ∈ l := by
  intro l
  induction l with
  | nil => intro t h; exact Or.inl h
  | cons p rest ih =>
    intro t h
    rw [List.foldl_cons] at h
    rcases ih _ h with h1 | h2
    · rcases PageIn_insertWalk q p _ t h1 with h3 | h3
      · exact Or.inl h3
      · exact Or.inr (by simp [h3])
    · exact Or.inr (List.mem_cons_of_mem p h2)

theorem PageIn_build_tree (q : Page) (pages : List Page)
    (h : PageIn q (build_tree pages)) : q ∈ pages := by
  unfold build_tree at h
  rcases PageIn_foldl q pages _ h with h1 | h2
  · exact absurd h1 (PageIn_mk_empty q "")
  · exact h2

/-! ## Every collected href has the depth prefix and appears in the markup -/

theorem collect_hrefs_shape :
    ∀ (n : Nat) (node : NavNode), sizeOf node ≤ n → ∀ (pre h : String),
      h ∈ collectSublevelHrefs node pre →
      ∃ p, PageIn p node ∧ h = pre ++ p.url := by
  intro n
  induction n with
  | zero =>
    intro node hsz
    cases node with
    | mk d ch ps => simp_arith at hsz
  | succ n ih =>
    intro node hsz pre h hmem
    unfold collectSublevelHrefs at hmem
    rcases List.mem_append.mp hmem with h1 | h2
    · rw [List.mem_flatten] at h1
      obtain ⟨l, hl, hhl⟩ := h1
      rw [List.mem_map] at hl
      obtain ⟨x, hx, rfl⟩ := hl
      have hmemch : (x.1.1, x.1.2) ∈ node.children := by
        rw [Prod.mk.eta]
        exact List.mem_mergeSort.mp x.2
      have hsz2 : sizeOf x.1.2 ≤ n := by
        have hlt := sizeOf_child_lt node x.1.1 x.1.2 hmemch
        omega
      obtain ⟨p, hp, rfl⟩ := ih x.1.2 hsz2 pre h hhl
      exact ⟨p, PageIn.child node x.1.1 x.1.2 hmemch hp, rfl⟩
    · rw [List.mem_map] at h2
      obtain ⟨p, hp, rfl⟩ := h2
      exact ⟨p, PageIn.here node (List.mem_mergeSort.mp hp), rfl⟩

theorem collect_hrefs_infix :
    ∀ (n : Nat) (node : NavNode), sizeOf node ≤ n →
      ∀ (ui : UiConfig) (parentId : String) (levelDepth : Nat) (pre h : String),
        h ∈ collectSublevelHrefs node pre →
        ("<a href=\"" ++ h ++ "\"").data
          <:+: (renderSublevel ui node parentId levelDepth pre).data := by
  intro n
  induction n with
  | zero =>
    intro node hsz
    cases node with
    | mk d ch ps => simp_arith at hsz
  | succ n ih =>
    intro node hsz ui parentId levelDepth pre h hmem
    unfold collectSublevelHrefs at hmem
    rw [renderSublevel, string_data_append]
    rcases List.mem_append.mp hmem with h1 | h2
    · rw [List.mem_flatten] at h1
      obtain ⟨l, hl, hhl⟩ := h1
      rw [List.mem_map] at hl
      obtain ⟨x, hx, rfl⟩ := hl
      have hmemch : (x.1.1, x.1.2) ∈ node.children := by
        rw [Prod.mk.eta]
        exact List.mem_mergeSort.mp x.2
      have hsz2 : sizeOf x.1.2 ≤ n := by
        have hlt := sizeOf_child_lt node x.1.1 x.1.2 hmemch
        omega
      have hinner := ih x.1.2 hsz2 ui (parentId ++ "-" ++ folderSlug x.1.1)
        (levelDepth + 1) pre h hhl
      apply infix_append_left
      refine infix_concatAll (List.mem_map_of_mem _ hx) ?_
      rw [string_data_append, string_data_append]
      exact infix_append_left _ (infix_append_right _ hinner)
    · rw [List.mem_map] at h2
      obtain ⟨p, hp, rfl⟩ := h2
      apply infix_append_right
      refine infix_concatAll (List.mem_map_of_mem _ hp) ?_
      exact infix_sandwich "\n                                "
        ("<a href=\"" ++ (pre ++ p.url) ++ "\"")
        (" class=\"nav-item "
          ++ (if 0 < levelDepth then "nav-item-depth-" ++ toString levelDepth
              else "nav-item")
          ++ "\" data-page=\"" ++ p.id
          ++ "\">\n                                    <span class=\"nav-item-text\">"
          ++ htmlEscape p.title
          ++ "</span>\n                                    "
          ++ bookmarkBtn ui.show_bookmarks p.id
          ++ "\n                                </a>")

/-! ## Claim C8 (confirmed): every navigation link carries the depth prefix -/

/-- C8: every page link href the navigation render at relative depth `d`
emits is exactly `'../' * d` followed by the url of one of the input pages,
and the full markup contains that link. -/
theorem navigation_links_depth_prefixed (ui : UiConfig) (pages : List Page)
    (d : Nat) (h : String) (hmem : h ∈ navLinkHrefs pages d) :
    (∃ p ∈ pages, h = dotdotSlash d ++ p.url)
    ∧ ("<a href=\"" ++ h ++ "\"").data
        <:+: (generate_navigation_html_for_depth ui pages d).data := by
  unfold navLinkHrefs at hmem
  rw [generate_navigation_html_for_depth, string_data_append]
  rcases List.mem_append.mp hmem with h1 | h2
  · rw [List.mem_flatten] at h1
    obtain ⟨l, hl, hhl⟩ := h1
    rw [List.mem_map] at hl
    obtain ⟨kv, hkv, rfl⟩ := hl
    have hmemch : (kv.1, kv.2) ∈ (build_tree pages).children := by
      rw [Prod.mk.eta]
      exact List.mem_mergeSort.mp hkv
    obtain ⟨p, hp, rfl⟩ :=
      collect_hrefs_shape (sizeOf kv.2) kv.2 le_rfl (dotdotSlash d) h hhl
    constructor
    · exact ⟨p,
        PageIn_build_tree p pages
          (PageIn.child (build_tree pages) kv.1 kv.2 hmemch hp), rfl⟩
    · have hinner := collect_hrefs_infix (sizeOf kv.2) kv.2 le_rfl ui
        (folderSlug kv.1) 1 (dotdotSlash d) _ hhl
      apply infix_append_left
      refine infix_concatAll (List.mem_map_of_mem _ hkv) ?_
      rw [string_data_append, string_data_append]
      exact infix_append_left _ (infix_append_right _ hinner)
  · rw [List.mem_map] at h2
    obtain ⟨p, hp, rfl⟩ := h2
    constructor
    · exact ⟨p,
        PageIn_build_tree p pages
          (PageIn.here (build_tree pages) (List.mem_mergeSort.mp hp)), rfl⟩
    · apply infix_append_right
      refine infix_concatAll (List.mem_map_of_mem _ hp) ?_
      exact infix_sandwich "\n                "
        ("<a href=\"" ++ (dotdotSlash d ++ p.url) ++ "\"")
        (" class=\"nav-item\" data-page=\"" ++ p.id
          ++ "\">\n                    <span class=\"nav-item-text\">"
          ++ htmlEscape p.title
          ++ "</span>\n                    "
          ++ bookmarkBtn ui.show_bookmarks p.id
          ++ "\n                </a>")

theorem navigation_links_depth_prefixed_witness :
    (∃ p ∈ [(⟨"x", "x.html", "X", [], []⟩ : Page)],
        "../../x.html" = dotdotSlash 2 ++ p.url)
    ∧ ("<a href=\"" ++ "../../x.html" ++ "\"").data
        <:+: (generate_navigation_html_for_depth ⟨[], "fas fa-folder", true⟩
          [⟨"x", "x.html", "X", [], []⟩] 2).data :=
  navigation_links_depth_prefixed ⟨[], "fas fa-folder", true⟩
    [⟨"x", "x.html", "X", [], []⟩] 2 "../../x.html"
    (by
      simp [navLinkHrefs, build_tree, insertWalk, List.mergeSort_nil,
        List.mergeSort_singleton, dotdotSlash, NavNode.children, NavNode.pages])

end Grimoire
